import Mathlib

/-!
Shallow embedding of the tab-state management subsystem and trade math of the
stock trade-planning calculator (sources: src/unnamed/part_001, the multi-tab
script, and src/script.js).  JavaScript arrays become lists, the DOM form
becomes an explicit record of field strings, localStorage becomes explicit
fields of the state, and timers become an explicit supply of fresh timer ids
together with the set of currently live interval timers.  The generated tab
ids (Date.now plus a random suffix in the source) are modelled by a strictly
increasing counter of fresh ids.
-/

namespace TradeTabs

/-! ## JavaScript array and string primitives, modelled directly -/

/-- Array.prototype.find: first element satisfying the predicate. -/
def jsFind (p : α → Bool) : List α → Option α
  | [] => none
  | x :: xs => if p x then some x else jsFind p xs

/-- Index of the first element satisfying the predicate, as an option. -/
def findIdxN (p : α → Bool) : List α → Option Nat
  | [] => none
  | x :: xs => if p x then some 0 else (findIdxN p xs).map (· + 1)

/-- Array.prototype.findIndex: index of the first match, or -1. -/
def jsFindIndex (p : α → Bool) (l : List α) : Int :=
  match findIdxN p l with
  | some n => (n : Int)
  | none => -1

/-- Zero-based indexing, arr[n], with undefined as none. -/
def nthOpt : List α → Nat → Option α
  | [], _ => none
  | x :: _, 0 => some x
  | _ :: xs, n + 1 => nthOpt xs n

/-- Removal of the element at a given position (no change when out of range). -/
def eraseAt : List α → Nat → List α
  | [], _ => []
  | _ :: xs, 0 => xs
  | x :: xs, n + 1 => x :: eraseAt xs n

/-- Array.prototype.splice(start, 1) where start may be negative: a negative
start counts from the end, clamped at 0, per the ECMAScript specification. -/
def jsSpliceRemoveOne (l : List α) (start : Int) : List α :=
  if start < 0 then eraseAt l (max ((l.length : Int) + start) 0).toNat
  else eraseAt l start.toNat

/-- Array.prototype.splice(start, 0, a): insertion before position start,
appending at the end when start is at or beyond the length. -/
def insertAt : Nat → α → List α → List α
  | 0, a, l => a :: l
  | _ + 1, a, [] => [a]
  | n + 1, a, x :: xs => x :: insertAt n a xs

/-- Replacement of the first element satisfying the predicate, modelling the
in-place mutation of the record returned by Array.prototype.find. -/
def updateFirst (p : α → Bool) (f : α → α) : List α → List α
  | [] => []
  | x :: xs => if p x then f x :: xs else x :: updateFirst p f xs

/-- Whitespace recognizer for the trim model. -/
def isWhite (c : Char) : Bool :=
  c == ' ' || c == '\t' || c == '\n' || c == '\r'

/-- String.prototype.trim: leading and trailing whitespace removed. -/
def jsTrim (s : String) : String :=
  String.mk (((s.data.dropWhile isWhite).reverse.dropWhile isWhite).reverse)

/-- String.prototype.toUpperCase, character by character. -/
def jsUpper (s : String) : String :=
  String.mk (s.data.map Char.toUpper)

/-! ## Data model

Tab records as created by addNewTab (part_001 lines 784-796) and persisted in
localStorage under the key stockTabs.  All numeric form fields are kept as the
entered strings, exactly as in the source. -/

/-- Calculation mode: the strings current and target in the source. -/
inductive CalcMode where
  | current : CalcMode
  | target : CalcMode
deriving DecidableEq

/-- One tab record (part_001 lines 784-796). -/
structure Tab where
  id : Nat
  name : String
  stockSymbol : String
  entryPrice : String
  targetPrice : String
  quantity : String
  tpPercent : String
  slPercent : String
  autoPriceEnabled : Bool
  calculationMode : CalcMode
  createdAt : Nat
deriving DecidableEq

/-- The on-screen input fields bound to the active tab. -/
structure Form where
  stockSymbol : String
  entryPrice : String
  targetPrice : String
  quantity : String
  tpPercent : String
  slPercent : String
deriving DecidableEq

/-- One cached quote, the value stored under stockPrice_SYMBOL
(part_001 lines 2215-2232). -/
structure CacheEntry where
  symbol : String
  price : ℚ
  percentChange : Option ℚ
  previousClose : Option ℚ
  openPrice : Option ℚ
  dayHigh : Option ℚ
  dayLow : Option ℚ
  volume : Option ℚ
  week52High : Option ℚ
  week52Low : Option ℚ
  timestamp : ℤ
deriving DecidableEq

/-- The whole mutable state of the script: module-level variables, the DOM
form, localStorage, and the timer environment.  The fields liveIntervals,
nextTimer and fetchLog model the browser timer table, a fresh-id supply for
setInterval handles, and the log of immediate quote fetches issued. -/
structure AppState where
  tabs : List Tab
  activeTabId : Option Nat
  nextId : Nat
  form : Form
  autoPriceEnabled : Bool
  calculationMode : CalcMode
  isLoadingTabState : Bool
  saveDebounceTimer : Option Nat
  storedTabs : Option (List Tab)
  storedActiveTabId : Option Nat
  priceCache : List (String × CacheEntry)
  liveIntervals : List Nat
  autoFetchIntervalId : Option Nat
  nextTimer : Nat
  fetchLog : List String
deriving DecidableEq

/-- Maximum number of tabs allowed (part_001 line 728). -/
def MAX_TABS : Nat := 20

/-- Cache freshness window in milliseconds, 1 minute in the multi-tab source
(part_001 line 1875). -/
def PRICE_CACHE_DURATION : ℤ := 1 * 60 * 1000

/-! ## Quote cache (part_001 lines 2195-2232) -/

/-- Lookup of the stockPrice_ entry with the given key. -/
def cacheLookup (key : String) (c : List (String × CacheEntry)) : Option CacheEntry :=
  (jsFind (fun e => e.1 == key) c).map (·.2)

/-- localStorage.removeItem for a stockPrice_ key. -/
def removeCacheKey (key : String) : List (String × CacheEntry) → List (String × CacheEntry)
  | [] => []
  | e :: es => if e.1 == key then removeCacheKey key es else e :: removeCacheKey key es

/-- getCachedPrice (part_001 lines 2195-2213): returns the cached entry while
it is fresh, deletes it from storage and returns none once it is stale, and
returns none on an absent key.  The function returns the read result together
with the storage after the read. -/
def getCachedPrice (symbol : String) (now : ℤ) (cache : List (String × CacheEntry)) :
    Option CacheEntry × List (String × CacheEntry) :=
  match cacheLookup symbol cache with
  | some data =>
    if now - data.timestamp < PRICE_CACHE_DURATION then (some data, cache)
    else (none, removeCacheKey symbol cache)
  | none => (none, cache)

/-- cachePrice (part_001 lines 2215-2232): stores the fetched quote under the
key for the symbol with the current timestamp, overwriting any old entry. -/
def cachePrice (symbol : String) (price : ℚ)
    (percentChange previousClose openPrice dayHigh dayLow volume week52High week52Low : Option ℚ)
    (now : ℤ) (cache : List (String × CacheEntry)) : List (String × CacheEntry) :=
  (symbol,
    { symbol := symbol, price := price, percentChange := percentChange,
      previousClose := previousClose, openPrice := openPrice, dayHigh := dayHigh,
      dayLow := dayLow, volume := volume, week52High := week52High,
      week52Low := week52Low, timestamp := now }) :: removeCacheKey symbol cache

/-! ## Tab store operations (part_001 lines 721-1265) -/

/-- saveTabsToStorage (part_001 lines 1224-1227). -/
def saveTabsToStorage (st : AppState) : AppState :=
  { st with storedTabs := some st.tabs, storedActiveTabId := st.activeTabId }

/-- The field writes of saveCurrentTabState (part_001 lines 1131-1138): form
values copied verbatim into the record, the symbol trimmed. -/
def flushFields (form : Form) (autoPrice : Bool) (mode : CalcMode) (t : Tab) : Tab :=
  { t with
    stockSymbol := jsTrim form.stockSymbol
    entryPrice := form.entryPrice
    targetPrice := form.targetPrice
    quantity := form.quantity
    tpPercent := form.tpPercent
    slPercent := form.slPercent
    autoPriceEnabled := autoPrice
    calculationMode := mode }

/-- saveCurrentTabState (part_001 lines 1121-1143): a no-op while a load is in
progress; otherwise copies the form into the active record and persists. -/
def saveCurrentTabState (st : AppState) : AppState :=
  if st.isLoadingTabState then st
  else
    match st.activeTabId with
    | none => st
    | some a =>
      if (jsFind (fun t => t.id == a) st.tabs).isSome then
        saveTabsToStorage
          { st with
            tabs := updateFirst (fun t => t.id == a)
              (flushFields st.form st.autoPriceEnabled st.calculationMode) st.tabs }
      else st

/-- debouncedSaveTabState (part_001 lines 1146-1161): a no-op while a load is
in progress; otherwise cancels any pending save timer and schedules a fresh
one. -/
def debouncedSaveTabState (st : AppState) : AppState :=
  if st.isLoadingTabState then st
  else { st with saveDebounceTimer := some st.nextTimer, nextTimer := st.nextTimer + 1 }

/-- loadTabState (part_001 lines 1164-1204): writes the stored fields of the
requested record onto the form, restores the auto-price and mode flags, and
raises the loading flag.  The flag is cleared by a later timer event, modelled
separately by clearLoadingFlag. -/
def loadTabState (tabId : Nat) (st : AppState) : AppState :=
  match jsFind (fun t => t.id == tabId) st.tabs with
  | none => st
  | some t =>
    { st with
      isLoadingTabState := true
      form :=
        { stockSymbol := t.stockSymbol, entryPrice := t.entryPrice,
          targetPrice := t.targetPrice, quantity := t.quantity,
          tpPercent := t.tpPercent, slPercent := t.slPercent }
      autoPriceEnabled := t.autoPriceEnabled
      calculationMode := t.calculationMode }

/-- The deferred setTimeout callback at part_001 lines 1201-1203 that clears
the loading flag once the field-change handlers have run. -/
def clearLoadingFlag (st : AppState) : AppState :=
  { st with isLoadingTabState := false }

/-- clearCalculatorForm (part_001 lines 1207-1221): resets the form fields and
switches the live auto-price flag off. -/
def clearCalculatorForm (st : AppState) : AppState :=
  { st with
    form :=
      { stockSymbol := "", entryPrice := "", targetPrice := "",
        quantity := "", tpPercent := "", slPercent := "" }
    autoPriceEnabled := false }

/-- The record bound to the active tab pointer, tabs.find on activeTabId. -/
def activeTab (st : AppState) : Option Tab :=
  match st.activeTabId with
  | none => none
  | some a => jsFind (fun t => t.id == a) st.tabs

/-- The condition activeTab and activeTab.autoPriceEnabled and
activeTab.stockSymbol used at part_001 lines 2376 and 2403. -/
def hasAutoPriceB (st : AppState) : Bool :=
  match activeTab st with
  | some t => t.autoPriceEnabled && (t.stockSymbol != "")
  | none => false

/-- The stock symbol of the active record, or the empty string. -/
def activeSymbol (st : AppState) : String :=
  match activeTab st with
  | some t => t.stockSymbol
  | none => ""

/-- The synchronous prefix of fetchPriceForActiveTab (part_001 lines
2273-2291): re-validates the active record at fire time, and issues a quote
fetch for the trimmed, uppercased symbol; the network response and the writes
it triggers are the external quote-provider collaborator and are outside this
model, so the issued fetch is recorded in the log. -/
def fetchPriceForActiveTab (st : AppState) : AppState :=
  match activeTab st with
  | none => st
  | some t =>
    if t.autoPriceEnabled && (t.stockSymbol != "") then
      let symbol := jsUpper (jsTrim t.stockSymbol)
      if symbol == "" then st
      else { st with fetchLog := st.fetchLog ++ [symbol] }
    else st

/-- startAutoFetchInterval (part_001 lines 2368-2389): cancels any existing
interval, then, when the active record wants auto-pricing, fetches immediately
and installs a fresh interval timer.  Note that the source does not null the
handle variable when the condition fails after the clear. -/
def startAutoFetchInterval (st : AppState) : AppState :=
  let st1 :=
    match st.autoFetchIntervalId with
    | some i => { st with liveIntervals := st.liveIntervals.erase i }
    | none => st
  if hasAutoPriceB st1 then
    let st2 := fetchPriceForActiveTab st1
    { st2 with
      autoFetchIntervalId := some st2.nextTimer
      liveIntervals := st2.liveIntervals ++ [st2.nextTimer]
      nextTimer := st2.nextTimer + 1 }
  else st1

/-- stopAutoFetchInterval (part_001 lines 2392-2398). -/
def stopAutoFetchInterval (st : AppState) : AppState :=
  match st.autoFetchIntervalId with
  | some i =>
    { st with liveIntervals := st.liveIntervals.erase i, autoFetchIntervalId := none }
  | none => st

/-- checkAutoFetchInterval (part_001 lines 2401-2415): the poller transition
rule evaluated after every poller-relevant event. -/
def checkAutoFetchInterval (st : AppState) : AppState :=
  let hasAutoPrice := hasAutoPriceB st
  if hasAutoPrice && !st.autoFetchIntervalId.isSome then startAutoFetchInterval st
  else if !hasAutoPrice && st.autoFetchIntervalId.isSome then stopAutoFetchInterval st
  else if hasAutoPrice && st.autoFetchIntervalId.isSome then startAutoFetchInterval st
  else st

/-- switchTab (part_001 lines 864-882). -/
def switchTab (tabId : Nat) (st : AppState) : AppState :=
  if st.activeTabId = some tabId then st
  else
    let st1 := if st.activeTabId.isSome then saveCurrentTabState st else st
    let st2 := { st1 with activeTabId := some tabId, storedActiveTabId := some tabId }
    let st3 := loadTabState tabId st2
    checkAutoFetchInterval st3

/-- addNewTab (part_001 lines 773-807): refused at the tab limit; otherwise
flushes the active record, appends a fresh default record, makes it active,
persists, and clears the form. -/
def addNewTab (st : AppState) : AppState :=
  if MAX_TABS ≤ st.tabs.length then st
  else
    let st1 := if st.activeTabId.isSome then saveCurrentTabState st else st
    let newTab : Tab :=
      { id := st1.nextId, name := "New Tab", stockSymbol := "",
        entryPrice := "", targetPrice := "", quantity := "",
        tpPercent := "", slPercent := "", autoPriceEnabled := false,
        calculationMode := CalcMode.current, createdAt := st1.nextId }
    let st2 :=
      { st1 with
        tabs := st1.tabs ++ [newTab]
        activeTabId := some newTab.id
        nextId := st1.nextId + 1 }
    clearCalculatorForm (saveTabsToStorage st2)

/-- closeTab (part_001 lines 885-928).  The confirmClose argument is the
outcome of the confirm dialog shown when the tab has a symbol.  Notable
details kept from the source: the cache entry for the symbol of the closed
tab is removed unconditionally, and the removal index comes from findIndex,
so a missing id yields splice(-1, 1), which removes the last element. -/
def closeTab (tabId : Nat) (confirmClose : Bool) (st : AppState) : AppState :=
  if st.tabs.length = 1 then st
  else
    let tab? := jsFind (fun t => t.id == tabId) st.tabs
    let needsConfirm := match tab? with
      | some t => t.stockSymbol != ""
      | none => false
    if needsConfirm && !confirmClose then st
    else
      let st1 := match tab? with
        | some t =>
          if t.stockSymbol != "" then
            { st with priceCache := removeCacheKey (jsUpper t.stockSymbol) st.priceCache }
          else st
        | none => st
      let tabIndex : Int := jsFindIndex (fun t => t.id == tabId) st1.tabs
      let st2 := { st1 with tabs := jsSpliceRemoveOne st1.tabs tabIndex }
      let st3 :=
        if st2.activeTabId = some tabId then
          let newActiveIndex : Nat := (max 0 (tabIndex - 1)).toNat
          match nthOpt st2.tabs newActiveIndex with
          | some t =>
            loadTabState t.id
              { st2 with activeTabId := some t.id, storedActiveTabId := some t.id }
          | none => st2
        else st2
      checkAutoFetchInterval (saveTabsToStorage st3)

/-- reorderTabs (part_001 lines 1009-1027): both indices are computed on the
original array, the dragged record is removed, then inserted at the drop
index of the already-shortened array. -/
def reorderTabs (draggedId dropTargetId : Nat) (st : AppState) : AppState :=
  match findIdxN (fun t => t.id == draggedId) st.tabs,
        findIdxN (fun t => t.id == dropTargetId) st.tabs with
  | some draggedIndex, some dropIndex =>
    match nthOpt st.tabs draggedIndex with
    | some draggedTab =>
      saveTabsToStorage
        { st with tabs := insertAt dropIndex draggedTab (eraseAt st.tabs draggedIndex) }
    | none => st
  | _, _ => st

/-! ## Trade math (part_001 lines 1583-1679, identical in src/script.js
lines 633-729)

The script parses the form fields with parseFloat and parseInt and computes
with IEEE doubles; numbers are modelled as exact rationals, with NaN (the
parse result of an empty or malformed field) as none.  Division is exact on
rationals except at a zero divisor, where the IEEE outcome NaN or a signed
infinity is modelled explicitly in the ratio display. -/

/-- Parsed input values of calculateTradeLevels; none models NaN. -/
structure TradeInputs where
  currentPrice : Option ℚ
  targetPrice : Option ℚ
  quantity : Option ℚ
  tpPercent : Option ℚ
  slPercent : Option ℚ
deriving DecidableEq

/-- Condition !x || x <= 0 on a parsed number (NaN and 0 are falsy). -/
def jsFalsyOrNonpos : Option ℚ → Bool
  | none => true
  | some q => decide (q ≤ 0)

/-- Condition isNaN(x) || x < 0 on a parsed number. -/
def jsNanOrNeg : Option ℚ → Bool
  | none => true
  | some q => decide (q < 0)

/-- Decimal digits of a natural number, most significant first; the fuel
argument keeps the recursion structural so that the kernel can evaluate it. -/
def natDigitsAux : Nat → Nat → List Char
  | _, 0 => []
  | n, fuel + 1 =>
    if n < 10 then [Nat.digitChar n]
    else natDigitsAux (n / 10) fuel ++ [Nat.digitChar (n % 10)]

/-- Decimal digit string of a natural number. -/
def natDigits (n : Nat) : List Char :=
  natDigitsAux n (n + 1)

/-- Digit string of a natural number with a decimal point placed d digits
from the right, zero-padded as needed. -/
def natDecimalString (m d : Nat) : String :=
  let s := natDigits m
  let s := if s.length ≤ d then List.replicate (d + 1 - s.length) '0' ++ s else s
  if d = 0 then String.mk s
  else String.mk (s.take (s.length - d)) ++ "." ++ String.mk (s.drop (s.length - d))

/-- Rounding to the nearest integer, halves away from zero, matching
Number.prototype.toFixed on the decimal values arising here. -/
def roundHalfAway (q : ℚ) : ℤ :=
  if 0 ≤ q then ⌊q + 1/2⌋ else -⌊-q + 1/2⌋

/-- Number.prototype.toFixed(d) for a finite value. -/
def jsToFixed (q : ℚ) (d : Nat) : String :=
  let n := roundHalfAway (q * (10 : ℚ) ^ d)
  (if n < 0 then "-" else "") ++ natDecimalString n.natAbs d

/-- The expression (maxProfit / maxLoss).toFixed(1) at part_001 line 1655:
with a zero divisor the IEEE quotient is NaN (0/0) or a signed infinity, and
toFixed renders it as the corresponding literal string. -/
def jsRatioToFixed1 (maxProfit maxLoss : ℚ) : String :=
  if maxLoss = 0 then
    if maxProfit = 0 then "NaN"
    else if 0 < maxProfit then "Infinity"
    else "-Infinity"
  else jsToFixed (maxProfit / maxLoss) 1

/-- Derived levels and display strings produced by calculateTradeLevels. -/
structure TradeLevels where
  tpPrice : ℚ
  slPrice : ℚ
  investment : ℚ
  maxProfit : ℚ
  maxLoss : ℚ
  perShareTP : ℚ
  perShareSL : ℚ
  riskRewardText : String
deriving DecidableEq

/-- calculateTradeLevels (part_001 lines 1583-1679): validation first, then
the derived prices and amounts from the base price selected by the mode; none
when validation fails and the computation is skipped.  The riskRewardText
field is the string written to the riskReward element, 1: followed by the
ratio. -/
def calculateTradeLevels (mode : CalcMode) (inp : TradeInputs) : Option TradeLevels :=
  let entryInvalid := jsFalsyOrNonpos inp.currentPrice
  let targetInvalid := (mode == CalcMode.target) && jsFalsyOrNonpos inp.targetPrice
  let quantityInvalid := jsFalsyOrNonpos inp.quantity
  let tpInvalid := jsNanOrNeg inp.tpPercent
  let slInvalid := jsNanOrNeg inp.slPercent
  if entryInvalid || targetInvalid || quantityInvalid || tpInvalid || slInvalid then none
  else
    let basePrice :=
      (if mode == CalcMode.target then inp.targetPrice else inp.currentPrice).getD 0
    let quantity := inp.quantity.getD 0
    let tpPercent := inp.tpPercent.getD 0
    let slPercent := inp.slPercent.getD 0
    let tpPrice := basePrice * (1 + tpPercent / 100)
    let slPrice := basePrice * (1 - slPercent / 100)
    let investment := basePrice * quantity
    let maxProfit := (tpPrice - basePrice) * quantity
    let maxLoss := (basePrice - slPrice) * quantity
    some
      { tpPrice := tpPrice, slPrice := slPrice, investment := investment,
        maxProfit := maxProfit, maxLoss := maxLoss,
        perShareTP := tpPrice - basePrice, perShareSL := basePrice - slPrice,
        riskRewardText := "1:" ++ jsRatioToFixed1 maxProfit maxLoss }

/-! ## Operation language and invariants for the store claims -/

/-- Identifier sequence of a tab collection. -/
def idsOf (l : List Tab) : List Nat := l.map Tab.id

/-- The three store operations quantified over by the invariant claim:
create (addNewTab), close (closeTab, with the confirm-dialog outcome), and
reorder (reorderTabs). -/
inductive TabOp where
  | add : TabOp
  | close (tabId : Nat) (confirmClose : Bool) : TabOp
  | reorder (draggedId dropTargetId : Nat) : TabOp
deriving DecidableEq

/-- Application of one store operation. -/
def applyOp (st : AppState) : TabOp → AppState
  | TabOp.add => addNewTab st
  | TabOp.close i c => closeTab i c st
  | TabOp.reorder a b => reorderTabs a b st

/-- Application of a sequence of store operations, left to right. -/
def applyOps (st : AppState) : List TabOp → AppState
  | [] => st
  | op :: ops => applyOps (applyOp st op) ops

/-- Validity of a store state: pairwise-distinct tab ids, an active pointer
that resolves to a member of the collection, and freshness of the id supply
(every live id is below the next generated one, which models the uniqueness
of the Date.now-based generateTabId). -/
def StoreInv (st : AppState) : Prop :=
  (idsOf st.tabs).Nodup ∧
  (∃ t ∈ st.tabs, st.activeTabId = some t.id) ∧
  ∀ t ∈ st.tabs, t.id < st.nextId

/-- Condition that every close operation of a sequence targets an id present
in the collection at the moment it is applied. -/
def ClosesPresent : AppState → List TabOp → Prop
  | _, [] => True
  | st, op :: ops =>
    (match op with
     | TabOp.close i _ => ∃ t ∈ st.tabs, t.id = i
     | _ => True) ∧ ClosesPresent (applyOp st op) ops

/-- The shape the timer environment has whenever the poller has only been
driven through checkAutoFetchInterval: the live interval set is exactly the
stored handle, and every live handle is below the fresh-handle supply. -/
def PollerInv (st : AppState) : Prop :=
  st.liveIntervals =
    (match st.autoFetchIntervalId with
     | some i => [i]
     | none => []) ∧
  ∀ i ∈ st.liveIntervals, i < st.nextTimer

/-- Property of reachable stores that every stored symbol is already trimmed,
which holds because saveCurrentTabState trims the symbol on every write. -/
def TrimmedSymbols (st : AppState) : Prop :=
  ∀ t ∈ st.tabs, jsTrim t.stockSymbol = t.stockSymbol

/-! ## Concrete states used by counterexamples and witnesses -/

/-- Empty form, the state of the inputs after clearCalculatorForm. -/
def emptyForm : Form :=
  { stockSymbol := "", entryPrice := "", targetPrice := "",
    quantity := "", tpPercent := "", slPercent := "" }

/-- Default tab record with a given id, as built by addNewTab. -/
def mkTab (i : Nat) : Tab :=
  { id := i, name := "New Tab", stockSymbol := "", entryPrice := "",
    targetPrice := "", quantity := "", tpPercent := "", slPercent := "",
    autoPriceEnabled := false, calculationMode := CalcMode.current, createdAt := i }

/-- Minimal quiescent application state. -/
def baseState : AppState :=
  { tabs := [], activeTabId := none, nextId := 0, form := emptyForm,
    autoPriceEnabled := false, calculationMode := CalcMode.current,
    isLoadingTabState := false, saveDebounceTimer := none, storedTabs := none,
    storedActiveTabId := none, priceCache := [], liveIntervals := [],
    autoFetchIntervalId := none, nextTimer := 0, fetchLog := [] }

/-- Default tab with a given id and the symbol AAPL. -/
def tabSym (i : Nat) : Tab := { mkTab i with stockSymbol := "AAPL" }

/-- Sample cached quote for AAPL, fetched at time 0. -/
def entryA : CacheEntry :=
  { symbol := "AAPL", price := 1, percentChange := none, previousClose := none,
    openPrice := none, dayHigh := none, dayLow := none, volume := none,
    week52High := none, week52Low := none, timestamp := 0 }

/-- Valid two-tab store whose active tab is the last one. -/
def exC1 : AppState :=
  { baseState with
    tabs := [mkTab 1, mkTab 2]
    activeTabId := some 2
    nextId := 3 }

/-- Valid store holding a single default tab. -/
def exC2 : AppState :=
  { baseState with
    tabs := [mkTab 1]
    activeTabId := some 1
    nextId := 2 }

/-- Valid store with two tabs that share the symbol AAPL and a cached AAPL
quote. -/
def exC5 : AppState :=
  { baseState with
    tabs := [tabSym 1, tabSym 2]
    activeTabId := some 1
    nextId := 3
    priceCache := [("AAPL", entryA)] }

/-- Valid store holding exactly one tab, used for the last-tab refusal. -/
def exC6 : AppState :=
  { baseState with
    tabs := [tabSym 1]
    activeTabId := some 1
    nextId := 2
    storedTabs := some [tabSym 1]
    storedActiveTabId := some 1 }

/-- Valid three-tab store in creation order. -/
def exC9 : AppState :=
  { baseState with
    tabs := [mkTab 1, mkTab 2, mkTab 3]
    activeTabId := some 1
    nextId := 4 }

/-- Valid store whose single tab wants auto-pricing for AAPL, poller idle. -/
def exC4 : AppState :=
  { baseState with
    tabs := [{ mkTab 1 with stockSymbol := "AAPL", autoPriceEnabled := true }]
    activeTabId := some 1
    nextId := 2
    nextTimer := 5 }

/-- Tab 1 configured for AAPL. -/
def wTabA : Tab := { mkTab 1 with stockSymbol := "AAPL" }

/-- Tab 2 configured for MSFT. -/
def wTabB : Tab := { mkTab 2 with stockSymbol := "MSFT" }

/-- Valid two-tab store, tab 1 active, used to exercise a real tab switch. -/
def exC2w : AppState :=
  { baseState with
    tabs := [wTabA, wTabB]
    activeTabId := some 1
    nextId := 3 }

/-- Store caught in the middle of a load: the loading flag is raised. -/
def loadingState : AppState :=
  { baseState with
    tabs := [{ mkTab 1 with entryPrice := "100" }]
    activeTabId := some 1
    nextId := 2
    isLoadingTabState := true
    form := { emptyForm with entryPrice := "250", stockSymbol := "MSFT" } }

/-- Quote cache holding the single AAPL entry. -/
def wCache : List (String × CacheEntry) := [("AAPL", entryA)]

/-! ## Helper lemmas on the cache primitives -/

theorem cacheLookup_removeCacheKey_self (key : String) (c : List (String × CacheEntry)) :
    cacheLookup key (removeCacheKey key c) = none := by
  induction c with
  | nil => rfl
  | cons e es ih =>
    simp only [removeCacheKey]
    by_cases h : (e.1 == key) = true
    · rw [if_pos h]
      exact ih
    · rw [if_neg h]
      simp only [cacheLookup, jsFind]
      rw [if_neg h]
      exact ih

theorem cacheLookup_removeCacheKey_other {k key : String}
    (h : k ≠ key) (c : List (String × CacheEntry)) :
    cacheLookup k (removeCacheKey key c) = cacheLookup k c := by
  induction c with
  | nil => rfl
  | cons e es ih =>
    simp only [removeCacheKey]
    by_cases he : (e.1 == key) = true
    · rw [if_pos he, ih]
      have hek : (e.1 == k) = false := by
        rw [beq_eq_false_iff_ne]
        intro hh
        exact h (by rw [← hh]; exact eq_of_beq he)
      simp [cacheLookup, jsFind, hek]
    · rw [if_neg he]
      simp only [cacheLookup, jsFind]
      by_cases hek : (e.1 == k) = true
      · rw [if_pos hek, if_pos hek]
      · rw [if_neg hek, if_neg hek]
        exact ih

/-! ## C10: getCachedPrice read semantics -/

/-- C10: a read through getCachedPrice returns the stored entry exactly when
its age is strictly below the freshness window; a stale entry is deleted from
storage by the read itself (and only that key is affected) and none is
returned; an absent key returns none and leaves storage unchanged. -/
theorem getCachedPrice_spec (symbol : String) (now : ℤ) (cache : List (String × CacheEntry)) :
    (cacheLookup symbol cache = none → getCachedPrice symbol now cache = (none, cache)) ∧
    (∀ e, cacheLookup symbol cache = some e →
      now - e.timestamp < PRICE_CACHE_DURATION →
      getCachedPrice symbol now cache = (some e, cache)) ∧
    (∀ e, cacheLookup symbol cache = some e →
      ¬(now - e.timestamp < PRICE_CACHE_DURATION) →
      getCachedPrice symbol now cache = (none, removeCacheKey symbol cache) ∧
      cacheLookup symbol (removeCacheKey symbol cache) = none ∧
      ∀ k, k ≠ symbol →
        cacheLookup k (removeCacheKey symbol cache) = cacheLookup k cache) := by
  refine ⟨?_, ?_, ?_⟩
  · intro h
    unfold getCachedPrice
    rw [h]
  · intro e he hfresh
    unfold getCachedPrice
    rw [he]
    show (if now - e.timestamp < PRICE_CACHE_DURATION then (some e, cache)
      else (none, removeCacheKey symbol cache)) = (some e, cache)
    rw [if_pos hfresh]
  · intro e he hstale
    unfold getCachedPrice
    rw [he]
    refine ⟨?_, cacheLookup_removeCacheKey_self symbol cache,
      fun k hk => cacheLookup_removeCacheKey_other hk cache⟩
    show (if now - e.timestamp < PRICE_CACHE_DURATION then (some e, cache)
      else (none, removeCacheKey symbol cache)) = (none, removeCacheKey symbol cache)
    rw [if_neg hstale]

theorem getCachedPrice_spec_witness :
    (cacheLookup "AAPL" wCache = some entryA ∧
      (100 : ℤ) - entryA.timestamp < PRICE_CACHE_DURATION ∧
      getCachedPrice "AAPL" 100 wCache = (some entryA, wCache)) ∧
    (¬((100000 : ℤ) - entryA.timestamp < PRICE_CACHE_DURATION) ∧
      getCachedPrice "AAPL" 100000 wCache = (none, removeCacheKey "AAPL" wCache)) ∧
    (cacheLookup "MSFT" wCache = none ∧
      getCachedPrice "MSFT" 100 wCache = (none, wCache)) :=
  ⟨⟨by decide, by decide,
      (getCachedPrice_spec "AAPL" 100 wCache).2.1 entryA (by decide) (by decide)⟩,
    ⟨by decide,
      ((getCachedPrice_spec "AAPL" 100000 wCache).2.2 entryA (by decide) (by decide)).1⟩,
    ⟨by decide,
      (getCachedPrice_spec "MSFT" 100 wCache).1 (by decide)⟩⟩

/-! ## C3: the re-entrancy guard of the save path -/

/-- C3: while a load is in progress (the loading flag is set), both
saveCurrentTabState and its debounced wrapper leave the whole state unchanged,
so the active record, the persisted collection, and the active pointer are all
untouched. -/
theorem saveDuringLoad_noop (st : AppState) (h : st.isLoadingTabState = true) :
    saveCurrentTabState st = st ∧ debouncedSaveTabState st = st := by
  unfold saveCurrentTabState debouncedSaveTabState
  rw [h]
  simp

theorem saveDuringLoad_noop_witness :
    loadingState.isLoadingTabState = true ∧
    saveCurrentTabState loadingState = loadingState ∧
    debouncedSaveTabState loadingState = loadingState :=
  ⟨rfl, (saveDuringLoad_noop loadingState rfl).1, (saveDuringLoad_noop loadingState rfl).2⟩

/-! ## C6: closing the last remaining tab is refused -/

/-- C6: when the collection holds exactly one tab, closeTab returns the state
unchanged for every requested id and every confirm outcome, so the collection,
the active pointer and the persisted state are all untouched. -/
theorem closeTab_lastTab_refused (st : AppState) (tabId : Nat) (confirmClose : Bool)
    (h : st.tabs.length = 1) :
    closeTab tabId confirmClose st = st := by
  unfold closeTab
  rw [h]
  simp

theorem closeTab_lastTab_refused_witness :
    exC6.tabs.length = 1 ∧ closeTab 1 true exC6 = exC6 ∧ closeTab 7 false exC6 = exC6 :=
  ⟨by decide, closeTab_lastTab_refused exC6 1 true (by decide),
    closeTab_lastTab_refused exC6 7 false (by decide)⟩

/-! ## Counterexamples found against the claims as stated -/

/-- C1 counterexample: from the valid two-tab store exC1 (active tab is the
last one), a single close operation naming the absent id 99 respects the
bounds yet leaves a dangling active pointer: findIndex yields -1, so
splice(-1, 1) silently removes the last tab, which was the active one. -/
theorem closeTab_missingId_breaks_invariant :
    StoreInv exC1 ∧
    exC1.tabs.length = 2 ∧
    (applyOps exC1 [TabOp.close 99 true]).tabs.length = 1 ∧
    (applyOps exC1 [TabOp.close 99 true]).activeTabId = some 2 ∧
    ∀ t ∈ (applyOps exC1 [TabOp.close 99 true]).tabs, t.id ≠ 2 :=
  ⟨by unfold StoreInv; decide, by decide, by decide, by decide, by decide⟩

/-- C2 counterexample: switching to the absent id 2 from the valid one-tab
store exC2 does not leave the store unchanged: the active pointer is set to
the missing id (and persisted), dangling outside the collection. -/
theorem switchTab_missingId_mutates :
    (∀ t ∈ exC2.tabs, t.id ≠ 2) ∧
    exC2.activeTabId = some 1 ∧
    (switchTab 2 exC2).activeTabId = some 2 ∧
    (switchTab 2 exC2).storedActiveTabId = some 2 ∧
    switchTab 2 exC2 ≠ exC2 := by
  decide

/-- C5 counterexample: in exC5 both tabs carry the symbol AAPL and the quote
cache holds an AAPL entry; a confirmed close of tab 2 still evicts the AAPL
entry even though tab 1 keeps referencing that symbol. -/
theorem closeTab_sharedSymbol_still_evicts :
    cacheLookup "AAPL" exC5.priceCache = some entryA ∧
    (closeTab 2 true exC5).tabs = [tabSym 1] ∧
    (tabSym 1).stockSymbol = "AAPL" ∧
    cacheLookup "AAPL" (closeTab 2 true exC5).priceCache = none := by
  decide

/-- C9 counterexample: in exC9 the tabs are ordered 1, 2, 3; reordering tab 1
before tab 3 yields the order 2, 3, 1, not the order 2, 1, 3 that would put
the moved tab immediately preceding the target. -/
theorem reorderTabs_not_preceding_counterexample :
    idsOf exC9.tabs = [1, 2, 3] ∧
    idsOf (reorderTabs 1 3 exC9).tabs = [2, 3, 1] ∧
    idsOf (reorderTabs 1 3 exC9).tabs ≠ [2, 1, 3] := by
  decide

/-! ## Trade math evaluation lemmas -/

theorem jsFalsyOrNonpos_pos {q : ℚ} (h : 0 < q) : jsFalsyOrNonpos (some q) = false := by
  simp only [jsFalsyOrNonpos, decide_eq_false_iff_not, not_le]
  exact h

theorem jsNanOrNeg_nonneg {q : ℚ} (h : 0 ≤ q) : jsNanOrNeg (some q) = false := by
  simp only [jsNanOrNeg, decide_eq_false_iff_not, not_lt]
  exact h

theorem curr_beq_target : (CalcMode.current == CalcMode.target) = false := by decide

theorem roundHalfAway_intCast (z : ℤ) (hz : 0 ≤ z) : roundHalfAway (z : ℚ) = z := by
  unfold roundHalfAway
  rw [if_pos (by exact_mod_cast hz : (0 : ℚ) ≤ (z : ℚ))]
  rw [Int.floor_eq_iff]
  constructor
  · linarith
  · linarith

theorem jsToFixed_intCast (q : ℚ) (z : ℤ) (d : Nat) (hz : 0 ≤ z)
    (h : q * (10 : ℚ) ^ d = (z : ℚ)) :
    jsToFixed q d = natDecimalString z.natAbs d := by
  unfold jsToFixed
  rw [h, roundHalfAway_intCast z hz]
  show (if z < 0 then "-" else "") ++ natDecimalString z.natAbs d = natDecimalString z.natAbs d
  rw [if_neg (not_lt.mpr hz)]
  rfl

theorem jsRatioToFixed1_of_ne (p l : ℚ) (hl : l ≠ 0) :
    jsRatioToFixed1 p l = jsToFixed (p / l) 1 := by
  unfold jsRatioToFixed1
  rw [if_neg hl]

/-- Evaluation of calculateTradeLevels in current-price mode on valid inputs:
with a positive price and quantity and nonnegative percentages, validation
passes and the derived values are exactly the formulas of the source. -/
theorem calculateTradeLevels_current (c q tp sl : ℚ) (tgt : Option ℚ)
    (hc : 0 < c) (hq : 0 < q) (htp : 0 ≤ tp) (hsl : 0 ≤ sl) :
    calculateTradeLevels CalcMode.current
      { currentPrice := some c, targetPrice := tgt, quantity := some q,
        tpPercent := some tp, slPercent := some sl } =
      some { tpPrice := c * (1 + tp / 100), slPrice := c * (1 - sl / 100),
             investment := c * q,
             maxProfit := (c * (1 + tp / 100) - c) * q,
             maxLoss := (c - c * (1 - sl / 100)) * q,
             perShareTP := c * (1 + tp / 100) - c,
             perShareSL := c - c * (1 - sl / 100),
             riskRewardText := "1:" ++ jsRatioToFixed1 ((c * (1 + tp / 100) - c) * q)
               ((c - c * (1 - sl / 100)) * q) } := by
  unfold calculateTradeLevels
  simp only [curr_beq_target, jsFalsyOrNonpos_pos hc, jsFalsyOrNonpos_pos hq,
    jsNanOrNeg_nonneg htp, jsNanOrNeg_nonneg hsl, Bool.false_and, Bool.or_false,
    Bool.false_or, if_false, Bool.false_eq_true, Option.getD_some]

/-! ## C7: the worked standard example -/

/-- C7: on price 100, quantity 10, tp 10 percent, sl 5 percent in
current-price mode, the code produces tpPrice 110, slPrice 95, investment
1000, maxProfit 100, maxLoss 50, whose displayed strings via toFixed are
110.00, 95.00, 1000.00, 100.00 and 50.00, and the displayed risk/reward
string is 1:2.0. -/
theorem tradeLevels_standard_example :
    calculateTradeLevels CalcMode.current
      { currentPrice := some 100, targetPrice := none, quantity := some 10,
        tpPercent := some 10, slPercent := some 5 } =
      some { tpPrice := 110, slPrice := 95, investment := 1000, maxProfit := 100,
             maxLoss := 50, perShareTP := 10, perShareSL := 5,
             riskRewardText := "1:2.0" } ∧
    jsToFixed 110 2 = "110.00" ∧ jsToFixed 95 2 = "95.00" ∧
    jsToFixed 1000 2 = "1000.00" ∧ jsToFixed 100 2 = "100.00" ∧
    jsToFixed 50 2 = "50.00" := by
  refine ⟨?_, ?_, ?_, ?_, ?_, ?_⟩
  · rw [calculateTradeLevels_current 100 10 10 5 none (by norm_num) (by norm_num)
      (by norm_num) (by norm_num)]
    have ha : ((100 : ℚ) * (1 + 10 / 100) - 100) * 10 = 100 := by norm_num
    have hb : ((100 : ℚ) - 100 * (1 - 5 / 100)) * 10 = 50 := by norm_num
    rw [ha, hb]
    have hr : jsRatioToFixed1 (100 : ℚ) 50 = "2.0" := by
      rw [jsRatioToFixed1_of_ne 100 50 (by norm_num)]
      rw [jsToFixed_intCast (100 / 50 : ℚ) 20 1 (by norm_num) (by norm_num)]
      decide
    rw [hr]
    have h1 : (100 : ℚ) * (1 + 10 / 100) = 110 := by norm_num
    have h2 : (100 : ℚ) * (1 - 5 / 100) = 95 := by norm_num
    rw [h1, h2]
    have h3 : (100 : ℚ) * 10 = 1000 := by norm_num
    have h4 : (110 : ℚ) - 100 = 10 := by norm_num
    have h5 : (100 : ℚ) - 95 = 5 := by norm_num
    have hs : "1:" ++ "2.0" = "1:2.0" := by decide
    rw [h3, h4, h5, hs]
  · rw [jsToFixed_intCast 110 11000 2 (by norm_num) (by norm_num)]
    decide
  · rw [jsToFixed_intCast 95 9500 2 (by norm_num) (by norm_num)]
    decide
  · rw [jsToFixed_intCast 1000 100000 2 (by norm_num) (by norm_num)]
    decide
  · rw [jsToFixed_intCast 100 10000 2 (by norm_num) (by norm_num)]
    decide
  · rw [jsToFixed_intCast 50 5000 2 (by norm_num) (by norm_num)]
    decide

/-! ## C8: zero percentages and the degenerate ratio -/

/-- C8: with both percentages zero on positive price and quantity, the
take-profit and stop-loss prices both equal the base price and both amounts
are zero, exactly as the claim states; however the ratio computation performs
maxProfit / maxLoss = 0 / 0, whose IEEE result NaN reaches the display as the
string 1:NaN, so the required defined fallback does not exist in the code.
The theorem evaluates the code at the failing input price 100, quantity 10. -/
theorem tradeLevels_zero_percent_divzero :
    calculateTradeLevels CalcMode.current
      { currentPrice := some 100, targetPrice := none, quantity := some 10,
        tpPercent := some 0, slPercent := some 0 } =
      some { tpPrice := 100, slPrice := 100, investment := 1000, maxProfit := 0,
             maxLoss := 0, perShareTP := 0, perShareSL := 0,
             riskRewardText := "1:NaN" } := by
  rw [calculateTradeLevels_current 100 10 0 0 none (by norm_num) (by norm_num)
    le_rfl le_rfl]
  have ha : ((100 : ℚ) * (1 + 0 / 100) - 100) * 10 = 0 := by norm_num
  have hb : ((100 : ℚ) - 100 * (1 - 0 / 100)) * 10 = 0 := by norm_num
  rw [ha, hb]
  have hr : jsRatioToFixed1 (0 : ℚ) 0 = "NaN" := by
    unfold jsRatioToFixed1
    rw [if_pos rfl, if_pos rfl]
  rw [hr]
  have h1 : (100 : ℚ) * (1 + 0 / 100) = 100 := by norm_num
  have h2 : (100 : ℚ) * (1 - 0 / 100) = 100 := by norm_num
  rw [h1, h2]
  have h3 : (100 : ℚ) * 10 = 1000 := by norm_num
  have h4 : (100 : ℚ) - 100 = 0 := by norm_num
  have hs : "1:" ++ "NaN" = "1:NaN" := by decide
  rw [h3, h4, hs]

/-! ## Frame lemmas: which fields each helper leaves untouched -/

theorem fetchPriceForActiveTab_frame (st : AppState) :
    (fetchPriceForActiveTab st).tabs = st.tabs ∧
    (fetchPriceForActiveTab st).activeTabId = st.activeTabId ∧
    (fetchPriceForActiveTab st).nextId = st.nextId ∧
    (fetchPriceForActiveTab st).form = st.form ∧
    (fetchPriceForActiveTab st).autoPriceEnabled = st.autoPriceEnabled ∧
    (fetchPriceForActiveTab st).calculationMode = st.calculationMode ∧
    (fetchPriceForActiveTab st).isLoadingTabState = st.isLoadingTabState ∧
    (fetchPriceForActiveTab st).saveDebounceTimer = st.saveDebounceTimer ∧
    (fetchPriceForActiveTab st).storedTabs = st.storedTabs ∧
    (fetchPriceForActiveTab st).storedActiveTabId = st.storedActiveTabId ∧
    (fetchPriceForActiveTab st).priceCache = st.priceCache ∧
    (fetchPriceForActiveTab st).liveIntervals = st.liveIntervals ∧
    (fetchPriceForActiveTab st).autoFetchIntervalId = st.autoFetchIntervalId ∧
    (fetchPriceForActiveTab st).nextTimer = st.nextTimer := by
  unfold fetchPriceForActiveTab
  cases hA : activeTab st
  · simp
  · dsimp only
    split_ifs <;> simp

theorem startAutoFetchInterval_frame (st : AppState) :
    (startAutoFetchInterval st).tabs = st.tabs ∧
    (startAutoFetchInterval st).activeTabId = st.activeTabId ∧
    (startAutoFetchInterval st).nextId = st.nextId ∧
    (startAutoFetchInterval st).form = st.form ∧
    (startAutoFetchInterval st).autoPriceEnabled = st.autoPriceEnabled ∧
    (startAutoFetchInterval st).calculationMode = st.calculationMode ∧
    (startAutoFetchInterval st).isLoadingTabState = st.isLoadingTabState ∧
    (startAutoFetchInterval st).saveDebounceTimer = st.saveDebounceTimer ∧
    (startAutoFetchInterval st).storedTabs = st.storedTabs ∧
    (startAutoFetchInterval st).storedActiveTabId = st.storedActiveTabId ∧
    (startAutoFetchInterval st).priceCache = st.priceCache := by
  unfold startAutoFetchInterval
  cases hI : st.autoFetchIntervalId <;> dsimp only <;> split_ifs <;>
    simp [fetchPriceForActiveTab_frame]

theorem stopAutoFetchInterval_frame (st : AppState) :
    (stopAutoFetchInterval st).tabs = st.tabs ∧
    (stopAutoFetchInterval st).activeTabId = st.activeTabId ∧
    (stopAutoFetchInterval st).nextId = st.nextId ∧
    (stopAutoFetchInterval st).form = st.form ∧
    (stopAutoFetchInterval st).autoPriceEnabled = st.autoPriceEnabled ∧
    (stopAutoFetchInterval st).calculationMode = st.calculationMode ∧
    (stopAutoFetchInterval st).isLoadingTabState = st.isLoadingTabState ∧
    (stopAutoFetchInterval st).saveDebounceTimer = st.saveDebounceTimer ∧
    (stopAutoFetchInterval st).storedTabs = st.storedTabs ∧
    (stopAutoFetchInterval st).storedActiveTabId = st.storedActiveTabId ∧
    (stopAutoFetchInterval st).priceCache = st.priceCache := by
  unfold stopAutoFetchInterval
  cases hI : st.autoFetchIntervalId <;> simp

theorem checkAutoFetchInterval_frame (st : AppState) :
    (checkAutoFetchInterval st).tabs = st.tabs ∧
    (checkAutoFetchInterval st).activeTabId = st.activeTabId ∧
    (checkAutoFetchInterval st).nextId = st.nextId ∧
    (checkAutoFetchInterval st).form = st.form ∧
    (checkAutoFetchInterval st).autoPriceEnabled = st.autoPriceEnabled ∧
    (checkAutoFetchInterval st).calculationMode = st.calculationMode ∧
    (checkAutoFetchInterval st).isLoadingTabState = st.isLoadingTabState ∧
    (checkAutoFetchInterval st).saveDebounceTimer = st.saveDebounceTimer ∧
    (checkAutoFetchInterval st).storedTabs = st.storedTabs ∧
    (checkAutoFetchInterval st).storedActiveTabId = st.storedActiveTabId ∧
    (checkAutoFetchInterval st).priceCache = st.priceCache := by
  unfold checkAutoFetchInterval
  dsimp only
  split_ifs <;>
    first
      | exact startAutoFetchInterval_frame st
      | exact stopAutoFetchInterval_frame st
      | simp

theorem loadTabState_frame (tabId : Nat) (st : AppState) :
    (loadTabState tabId st).tabs = st.tabs ∧
    (loadTabState tabId st).activeTabId = st.activeTabId ∧
    (loadTabState tabId st).nextId = st.nextId ∧
    (loadTabState tabId st).saveDebounceTimer = st.saveDebounceTimer ∧
    (loadTabState tabId st).storedTabs = st.storedTabs ∧
    (loadTabState tabId st).storedActiveTabId = st.storedActiveTabId ∧
    (loadTabState tabId st).priceCache = st.priceCache ∧
    (loadTabState tabId st).liveIntervals = st.liveIntervals ∧
    (loadTabState tabId st).autoFetchIntervalId = st.autoFetchIntervalId ∧
    (loadTabState tabId st).nextTimer = st.nextTimer ∧
    (loadTabState tabId st).fetchLog = st.fetchLog := by
  unfold loadTabState
  cases hF : jsFind (fun t => t.id == tabId) st.tabs <;> simp

theorem saveCurrentTabState_frame (st : AppState) :
    (saveCurrentTabState st).activeTabId = st.activeTabId ∧
    (saveCurrentTabState st).nextId = st.nextId ∧
    (saveCurrentTabState st).form = st.form ∧
    (saveCurrentTabState st).autoPriceEnabled = st.autoPriceEnabled ∧
    (saveCurrentTabState st).calculationMode = st.calculationMode ∧
    (saveCurrentTabState st).isLoadingTabState = st.isLoadingTabState ∧
    (saveCurrentTabState st).saveDebounceTimer = st.saveDebounceTimer ∧
    (saveCurrentTabState st).priceCache = st.priceCache ∧
    (saveCurrentTabState st).liveIntervals = st.liveIntervals ∧
    (saveCurrentTabState st).autoFetchIntervalId = st.autoFetchIntervalId ∧
    (saveCurrentTabState st).nextTimer = st.nextTimer ∧
    (saveCurrentTabState st).fetchLog = st.fetchLog := by
  unfold saveCurrentTabState
  split_ifs
  · simp
  · cases hA : st.activeTabId
    · simp [hA]
    · dsimp only
      split_ifs <;> simp [saveTabsToStorage, hA]

/-! ## C5 amended: unconditional cache eviction on close -/

theorem loadTabState_priceCache (tabId : Nat) (st : AppState) :
    (loadTabState tabId st).priceCache = st.priceCache :=
  (loadTabState_frame tabId st).2.2.2.2.2.2.1

theorem checkAutoFetchInterval_priceCache (st : AppState) :
    (checkAutoFetchInterval st).priceCache = st.priceCache :=
  (checkAutoFetchInterval_frame st).2.2.2.2.2.2.2.2.2.2

/-- C5 amended: a confirmed close of any tab holding a non-empty symbol
removes that symbol's stockPrice_ cache entry unconditionally; no check of
the remaining tabs is performed, so the entry is gone even when another tab
still references the same symbol. -/
theorem closeTab_always_evicts (st : AppState) (tabId : Nat) (t : Tab)
    (hlen : st.tabs.length ≠ 1)
    (hfind : jsFind (fun u => u.id == tabId) st.tabs = some t)
    (hsym : t.stockSymbol ≠ "") :
    cacheLookup (jsUpper t.stockSymbol) (closeTab tabId true st).priceCache = none := by
  unfold closeTab
  rw [if_neg hlen, hfind]
  dsimp only
  have hb : (t.stockSymbol != "") = true := by simpa [bne_iff_ne] using hsym
  rw [Bool.not_true, Bool.and_false, if_neg (by simp : ¬false = true), if_pos hb]
  simp only [checkAutoFetchInterval_priceCache, saveTabsToStorage]
  split
  · split
    · simp only [loadTabState_priceCache]
      exact cacheLookup_removeCacheKey_self _ _
    · exact cacheLookup_removeCacheKey_self _ _
  · exact cacheLookup_removeCacheKey_self _ _

theorem closeTab_always_evicts_witness :
    exC5.tabs.length ≠ 1 ∧
    jsFind (fun u => u.id == 2) exC5.tabs = some (tabSym 2) ∧
    (tabSym 2).stockSymbol ≠ "" ∧
    cacheLookup (jsUpper (tabSym 2).stockSymbol) (closeTab 2 true exC5).priceCache = none :=
  ⟨by decide, by decide, by decide,
    closeTab_always_evicts exC5 2 (tabSym 2) (by decide) (by decide) (by decide)⟩

/-! ## Membership and string helper lemmas -/

theorem jsFind_mem {p : α → Bool} {l : List α} {x : α} (h : jsFind p l = some x) :
    x ∈ l ∧ p x = true := by
  induction l with
  | nil => cases h
  | cons y ys ih =>
    unfold jsFind at h
    by_cases hp : p y = true
    · rw [if_pos hp] at h
      cases h
      exact ⟨List.mem_cons_self _ _, hp⟩
    · rw [if_neg hp] at h
      rcases ih h with ⟨hm, hx⟩
      exact ⟨List.mem_cons_of_mem y hm, hx⟩

theorem activeTab_mem {st : AppState} {t : Tab} (h : activeTab st = some t) :
    t ∈ st.tabs := by
  unfold activeTab at h
  cases hA : st.activeTabId with
  | none => rw [hA] at h; cases h
  | some a => rw [hA] at h; exact (jsFind_mem h).1

theorem string_eq_empty_of_data_nil {s : String} (h : s.data = []) : s = "" := by
  cases s with
  | mk data =>
    cases h
    rfl

theorem jsUpper_ne_empty {s : String} (h : s ≠ "") : jsUpper s ≠ "" := by
  intro hu
  apply h
  have hd := congrArg String.data hu
  simp only [jsUpper] at hd
  exact string_eq_empty_of_data_nil (List.map_eq_nil_iff.mp hd)

theorem hasAutoPriceB_congr (st1 st2 : AppState)
    (ht : st1.tabs = st2.tabs) (ha : st1.activeTabId = st2.activeTabId) :
    hasAutoPriceB st1 = hasAutoPriceB st2 := by
  unfold hasAutoPriceB activeTab
  rw [ht, ha]

theorem activeSymbol_congr (st1 st2 : AppState)
    (ht : st1.tabs = st2.tabs) (ha : st1.activeTabId = st2.activeTabId) :
    activeSymbol st1 = activeSymbol st2 := by
  unfold activeSymbol activeTab
  rw [ht, ha]

/-! ## Poller characterization lemmas -/

theorem fetchPriceForActiveTab_on (st : AppState) (hA : hasAutoPriceB st = true)
    (htrim : TrimmedSymbols st) :
    fetchPriceForActiveTab st =
      { st with fetchLog := st.fetchLog ++ [jsUpper (activeSymbol st)] } := by
  unfold hasAutoPriceB at hA
  unfold fetchPriceForActiveTab activeSymbol
  cases hT : activeTab st with
  | none =>
    rw [hT] at hA
    simp at hA
  | some t =>
    rw [hT] at hA
    have hA2 : (t.autoPriceEnabled && (t.stockSymbol != "")) = true := hA
    dsimp only
    rw [if_pos hA2]
    have hsym : t.stockSymbol ≠ "" := by
      have h2 : (t.stockSymbol != "") = true := ((Bool.and_eq_true _ _).mp hA2).2
      simpa [bne_iff_ne] using h2
    rw [htrim t (activeTab_mem hT)]
    rw [if_neg (by simpa [beq_iff_eq] using jsUpper_ne_empty hsym)]

theorem startAutoFetchInterval_on (st : AppState) (hA : hasAutoPriceB st = true)
    (htrim : TrimmedSymbols st) :
    (startAutoFetchInterval st).autoFetchIntervalId = some st.nextTimer ∧
    (startAutoFetchInterval st).liveIntervals =
      (match st.autoFetchIntervalId with
       | some i => st.liveIntervals.erase i
       | none => st.liveIntervals) ++ [st.nextTimer] ∧
    (startAutoFetchInterval st).nextTimer = st.nextTimer + 1 ∧
    (startAutoFetchInterval st).fetchLog = st.fetchLog ++ [jsUpper (activeSymbol st)] := by
  unfold startAutoFetchInterval
  cases hI : st.autoFetchIntervalId with
  | none =>
    dsimp only
    rw [if_pos hA, fetchPriceForActiveTab_on st hA htrim]
    exact ⟨rfl, rfl, rfl, rfl⟩
  | some i =>
    dsimp only
    have hA2 : hasAutoPriceB
        { st with liveIntervals := st.liveIntervals.erase i, autoFetchIntervalId := some i } = true :=
      (hasAutoPriceB_congr _ st rfl rfl).trans hA
    rw [if_pos hA2, fetchPriceForActiveTab_on _ hA2 (fun t htm => htrim t htm)]
    refine ⟨rfl, rfl, rfl, ?_⟩
    dsimp only
    rw [activeSymbol_congr
      { st with liveIntervals := st.liveIntervals.erase i, autoFetchIntervalId := some i }
      st rfl rfl]

theorem stopAutoFetchInterval_on (st : AppState) (i : Nat)
    (hI : st.autoFetchIntervalId = some i) :
    stopAutoFetchInterval st =
      { st with liveIntervals := st.liveIntervals.erase i, autoFetchIntervalId := none } := by
  unfold stopAutoFetchInterval
  rw [hI]

theorem startAutoFetchInterval_isSome (st : AppState) (hA : hasAutoPriceB st = true) :
    (startAutoFetchInterval st).autoFetchIntervalId.isSome = true := by
  unfold startAutoFetchInterval
  cases hI : st.autoFetchIntervalId with
  | none =>
    dsimp only
    rw [if_pos hA]
    rfl
  | some i =>
    dsimp only
    have hA2 : hasAutoPriceB
        { st with liveIntervals := st.liveIntervals.erase i, autoFetchIntervalId := some i } = true :=
      (hasAutoPriceB_congr _ st rfl rfl).trans hA
    rw [if_pos hA2]
    rfl

theorem checkAutoFetchInterval_isSome (st : AppState) :
    (checkAutoFetchInterval st).autoFetchIntervalId.isSome = hasAutoPriceB st := by
  unfold checkAutoFetchInterval
  cases hA : hasAutoPriceB st with
  | true =>
    cases hI : st.autoFetchIntervalId with
    | none =>
      simp only [Option.isSome_none, Bool.not_false, Bool.true_and, if_true]
      exact startAutoFetchInterval_isSome st hA
    | some i =>
      simp only [Option.isSome_some, Bool.not_true, Bool.true_and, Bool.and_false,
        Bool.false_eq_true, if_false, if_true]
      exact startAutoFetchInterval_isSome st hA
  | false =>
    cases hI : st.autoFetchIntervalId with
    | none =>
      simp [hI]
    | some i =>
      simp only [Option.isSome_some, Bool.not_false, Bool.false_and, Bool.true_and,
        Bool.false_eq_true, if_false, if_true]
      rw [stopAutoFetchInterval_on st i hI]
      rfl

theorem check_eq_start_idle (st : AppState) (hA : hasAutoPriceB st = true)
    (hI : st.autoFetchIntervalId = none) :
    checkAutoFetchInterval st = startAutoFetchInterval st := by
  unfold checkAutoFetchInterval
  rw [hA, hI]
  simp

theorem check_eq_restart (st : AppState) (i : Nat) (hA : hasAutoPriceB st = true)
    (hI : st.autoFetchIntervalId = some i) :
    checkAutoFetchInterval st = startAutoFetchInterval st := by
  unfold checkAutoFetchInterval
  rw [hA, hI]
  simp

theorem check_eq_stop (st : AppState) (i : Nat) (hA : hasAutoPriceB st = false)
    (hI : st.autoFetchIntervalId = some i) :
    checkAutoFetchInterval st = stopAutoFetchInterval st := by
  unfold checkAutoFetchInterval
  rw [hA, hI]
  simp

theorem check_eq_id (st : AppState) (hA : hasAutoPriceB st = false)
    (hI : st.autoFetchIntervalId = none) :
    checkAutoFetchInterval st = st := by
  unfold checkAutoFetchInterval
  rw [hA, hI]
  simp

/-! ## C4: the poller transition rule -/

/-- C4: evaluated at any reachable poller state (PollerInv) with trimmed
stored symbols, checkAutoFetchInterval behaves as the claimed step relation:
start with an immediate fetch when the active record wants auto-pricing and
the poller is idle; cancel the timer when it does not want auto-pricing and
the poller runs; restart unconditionally (old timer cancelled and no longer
live, fresh timer, immediate fetch for the current active symbol) when it
wants auto-pricing and the poller already runs; and at no point are two poll
intervals live at once. -/
theorem checkAutoFetchInterval_spec (st : AppState)
    (hinv : PollerInv st) (htrim : TrimmedSymbols st) :
    (hasAutoPriceB st = true → st.autoFetchIntervalId = none →
      (checkAutoFetchInterval st).autoFetchIntervalId = some st.nextTimer ∧
      (checkAutoFetchInterval st).liveIntervals = [st.nextTimer] ∧
      (checkAutoFetchInterval st).fetchLog = st.fetchLog ++ [jsUpper (activeSymbol st)]) ∧
    (hasAutoPriceB st = false → ∀ i, st.autoFetchIntervalId = some i →
      (checkAutoFetchInterval st).autoFetchIntervalId = none ∧
      (checkAutoFetchInterval st).liveIntervals = [] ∧
      (checkAutoFetchInterval st).fetchLog = st.fetchLog) ∧
    (hasAutoPriceB st = true → ∀ i, st.autoFetchIntervalId = some i →
      (checkAutoFetchInterval st).autoFetchIntervalId = some st.nextTimer ∧
      i < st.nextTimer ∧
      i ∉ (checkAutoFetchInterval st).liveIntervals ∧
      (checkAutoFetchInterval st).liveIntervals = [st.nextTimer] ∧
      (checkAutoFetchInterval st).fetchLog = st.fetchLog ++ [jsUpper (activeSymbol st)]) ∧
    PollerInv (checkAutoFetchInterval st) ∧
    (checkAutoFetchInterval st).liveIntervals.length ≤ 1 := by
  obtain ⟨hlive, hbound⟩ := hinv
  have hstart_idle : hasAutoPriceB st = true → st.autoFetchIntervalId = none →
      (checkAutoFetchInterval st).autoFetchIntervalId = some st.nextTimer ∧
      (checkAutoFetchInterval st).liveIntervals = [st.nextTimer] ∧
      (checkAutoFetchInterval st).nextTimer = st.nextTimer + 1 ∧
      (checkAutoFetchInterval st).fetchLog = st.fetchLog ++ [jsUpper (activeSymbol st)] := by
    intro hA hI
    rw [check_eq_start_idle st hA hI]
    obtain ⟨h1, h2, h3, h4⟩ := startAutoFetchInterval_on st hA htrim
    rw [hI] at h2
    have hl0 : st.liveIntervals = [] := by rw [hlive, hI]
    have h2b : (startAutoFetchInterval st).liveIntervals = st.liveIntervals ++ [st.nextTimer] := h2
    rw [hl0] at h2b
    exact ⟨h1, by simpa using h2b, h3, h4⟩
  have hrestart : hasAutoPriceB st = true → ∀ i, st.autoFetchIntervalId = some i →
      (checkAutoFetchInterval st).autoFetchIntervalId = some st.nextTimer ∧
      i < st.nextTimer ∧
      (checkAutoFetchInterval st).liveIntervals = [st.nextTimer] ∧
      (checkAutoFetchInterval st).nextTimer = st.nextTimer + 1 ∧
      (checkAutoFetchInterval st).fetchLog = st.fetchLog ++ [jsUpper (activeSymbol st)] := by
    intro hA i hI
    rw [check_eq_restart st i hA hI]
    obtain ⟨h1, h2, h3, h4⟩ := startAutoFetchInterval_on st hA htrim
    rw [hI] at h2
    have hl1 : st.liveIntervals = [i] := by rw [hlive, hI]
    have h2b : (startAutoFetchInterval st).liveIntervals =
        st.liveIntervals.erase i ++ [st.nextTimer] := h2
    rw [hl1] at h2b
    have hib : i < st.nextTimer := hbound i (by rw [hl1]; exact List.mem_singleton_self i)
    exact ⟨h1, hib, by simpa using h2b, h3, h4⟩
  have hstop : hasAutoPriceB st = false → ∀ i, st.autoFetchIntervalId = some i →
      (checkAutoFetchInterval st).autoFetchIntervalId = none ∧
      (checkAutoFetchInterval st).liveIntervals = [] ∧
      (checkAutoFetchInterval st).nextTimer = st.nextTimer ∧
      (checkAutoFetchInterval st).fetchLog = st.fetchLog := by
    intro hA i hI
    rw [check_eq_stop st i hA hI, stopAutoFetchInterval_on st i hI]
    have hl1 : st.liveIntervals = [i] := by rw [hlive, hI]
    refine ⟨rfl, ?_, rfl, rfl⟩
    show st.liveIntervals.erase i = []
    rw [hl1]
    simp
  refine ⟨fun hA hI => ⟨(hstart_idle hA hI).1, (hstart_idle hA hI).2.1, (hstart_idle hA hI).2.2.2⟩,
    fun hA i hI => ⟨(hstop hA i hI).1, (hstop hA i hI).2.1, (hstop hA i hI).2.2.2⟩,
    fun hA i hI => ⟨(hrestart hA i hI).1, (hrestart hA i hI).2.1, ?_,
      (hrestart hA i hI).2.2.1, (hrestart hA i hI).2.2.2.2⟩, ?_, ?_⟩
  · rw [(hrestart hA i hI).2.2.1]
    intro hmem
    rcases List.mem_singleton.mp hmem with h
    exact absurd ((hrestart hA i hI).2.1) (by rw [h]; exact lt_irrefl _)
  · cases hA : hasAutoPriceB st with
    | true =>
      cases hI : st.autoFetchIntervalId with
      | none =>
        obtain ⟨h1, h2, h3, _⟩ := hstart_idle hA hI
        constructor
        · rw [h1, h2]
        · intro j hj
          rw [h2] at hj
          rw [h3, List.mem_singleton.mp hj]
          exact Nat.lt_succ_self _
      | some i =>
        obtain ⟨h1, _, h2, h3, _⟩ := hrestart hA i hI
        constructor
        · rw [h1, h2]
        · intro j hj
          rw [h2] at hj
          rw [h3, List.mem_singleton.mp hj]
          exact Nat.lt_succ_self _
    | false =>
      cases hI : st.autoFetchIntervalId with
      | none =>
        rw [check_eq_id st hA hI]
        exact ⟨hlive, hbound⟩
      | some i =>
        obtain ⟨h1, h2, h3, _⟩ := hstop hA i hI
        constructor
        · rw [h1, h2]
        · intro j hj
          rw [h2] at hj
          cases hj
  · cases hA : hasAutoPriceB st with
    | true =>
      cases hI : st.autoFetchIntervalId with
      | none => rw [(hstart_idle hA hI).2.1]; simp
      | some i => rw [(hrestart hA i hI).2.2.1]; simp
    | false =>
      cases hI : st.autoFetchIntervalId with
      | none =>
        rw [check_eq_id st hA hI, hlive, hI]
        simp
      | some i => rw [(hstop hA i hI).2.1]; simp

theorem checkAutoFetchInterval_spec_witness :
    hasAutoPriceB exC4 = true ∧ exC4.autoFetchIntervalId = none ∧
    (checkAutoFetchInterval exC4).autoFetchIntervalId = some exC4.nextTimer ∧
    (checkAutoFetchInterval exC4).liveIntervals = [exC4.nextTimer] ∧
    (checkAutoFetchInterval exC4).fetchLog =
      exC4.fetchLog ++ [jsUpper (activeSymbol exC4)] :=
  ⟨by decide, by decide,
    (checkAutoFetchInterval_spec exC4 ⟨by decide, by decide⟩
      (by unfold TrimmedSymbols; decide) |>.1) (by decide) (by decide)⟩

/-! ## Lemmas about jsFind and updateFirst -/

theorem jsFind_eq_none {p : α → Bool} {l : List α} (h : ∀ x ∈ l, p x = false) :
    jsFind p l = none := by
  induction l with
  | nil => rfl
  | cons y ys ih =>
    unfold jsFind
    rw [if_neg (by rw [h y (List.mem_cons_self _ _)]; exact Bool.false_ne_true)]
    exact ih fun x hx => h x (List.mem_cons_of_mem y hx)

theorem map_updateFirst {g : α → β} {p : α → Bool} {f : α → α}
    (hgf : ∀ x, g (f x) = g x) (l : List α) :
    (updateFirst p f l).map g = l.map g := by
  induction l with
  | nil => rfl
  | cons y ys ih =>
    unfold updateFirst
    by_cases hp : p y = true
    · rw [if_pos hp]
      simp only [List.map_cons, hgf y]
    · rw [if_neg hp]
      simp only [List.map_cons, ih]

theorem mem_updateFirst {p : α → Bool} {f : α → α} {u : α} {l : List α}
    (hp : p u = false) (hm : u ∈ l) : u ∈ updateFirst p f l := by
  induction l with
  | nil => cases hm
  | cons y ys ih =>
    unfold updateFirst
    rcases List.mem_cons.mp hm with h | h
    · subst h
      rw [if_neg (by rw [hp]; exact Bool.false_ne_true)]
      exact List.mem_cons_self _ _
    · by_cases hpy : p y = true
      · rw [if_pos hpy]
        exact List.mem_cons_of_mem _ h
      · rw [if_neg hpy]
        exact List.mem_cons_of_mem _ (ih h)

theorem jsFind_updateFirst_other {p q : α → Bool} {f : α → α}
    (hpq : ∀ x, p x = true → q x = false) (hqf : ∀ x, q (f x) = q x) (l : List α) :
    jsFind q (updateFirst p f l) = jsFind q l := by
  induction l with
  | nil => rfl
  | cons y ys ih =>
    unfold updateFirst
    by_cases hp : p y = true
    · rw [if_pos hp]
      unfold jsFind
      rw [hqf y, hpq y hp]
      rw [if_neg Bool.false_ne_true, if_neg Bool.false_ne_true]
    · rw [if_neg hp]
      unfold jsFind
      by_cases hq : q y = true
      · rw [if_pos hq, if_pos hq]
      · rw [if_neg hq, if_neg hq]
        exact ih

theorem jsFind_updateFirst_self {p : α → Bool} {f : α → α}
    (hpf : ∀ x, p (f x) = p x) (l : List α) :
    jsFind p (updateFirst p f l) = (jsFind p l).map f := by
  induction l with
  | nil => rfl
  | cons y ys ih =>
    unfold updateFirst
    by_cases hp : p y = true
    · rw [if_pos hp]
      unfold jsFind
      rw [if_pos (by rw [hpf y]; exact hp), if_pos hp]
      rfl
    · rw [if_neg hp]
      unfold jsFind
      rw [if_neg hp, if_neg hp]
      exact ih

theorem jsFind_of_mem_nodup {l : List Tab} {t : Tab}
    (hnodup : (idsOf l).Nodup) (hm : t ∈ l) :
    jsFind (fun u => u.id == t.id) l = some t := by
  induction l with
  | nil => cases hm
  | cons y ys ih =>
    have hcons := List.nodup_cons.mp (show (y.id :: idsOf ys).Nodup from hnodup)
    unfold jsFind
    rcases List.mem_cons.mp hm with h | h
    · subst h
      rw [if_pos (by simp)]
    · have hy : (y.id == t.id) = false := by
        rw [beq_eq_false_iff_ne]
        intro hid
        exact hcons.1 (by rw [hid]; exact List.mem_map_of_mem Tab.id h)
      rw [if_neg (by rw [hy]; exact Bool.false_ne_true)]
      exact ih hcons.2 h

theorem saveCurrentTabState_of_none {st : AppState} (hAct : st.activeTabId = none) :
    saveCurrentTabState st = st := by
  unfold saveCurrentTabState
  rw [hAct]
  split_ifs <;> rfl

theorem loadTabState_of_absent {st : AppState} {tabId : Nat}
    (h : ∀ u ∈ st.tabs, u.id ≠ tabId) : loadTabState tabId st = st := by
  unfold loadTabState
  rw [jsFind_eq_none (fun x hx => by rw [beq_eq_false_iff_ne]; exact h x hx)]

/-! ## C2 amended: the semantics of switchTab -/

/-- C2 amended: switching to the already-active tab id is a no-op; switching
to a different existing tab flushes the current active record (verbatim form
values, trimmed symbol), sets and persists the active pointer, loads the
record fields into the form while the loading flag is raised, and re-evaluates
the poller (the timer runs afterwards exactly when the new active record wants
auto-pricing); switching to a missing id still flushes and still sets and
persists the active pointer, which then dangles outside the collection, while
the form load is skipped. -/
theorem switchTab_spec :
    (∀ (st : AppState) (tabId : Nat),
      st.activeTabId = some tabId → switchTab tabId st = st) ∧
    (∀ (st : AppState) (tabId : Nat) (told t : Tab), (idsOf st.tabs).Nodup →
      st.isLoadingTabState = false →
      st.activeTabId = some told.id → told ∈ st.tabs → told.id ≠ tabId →
      t ∈ st.tabs → t.id = tabId →
      (switchTab tabId st).activeTabId = some tabId ∧
      (switchTab tabId st).storedActiveTabId = some tabId ∧
      (switchTab tabId st).form =
        { stockSymbol := t.stockSymbol, entryPrice := t.entryPrice,
          targetPrice := t.targetPrice, quantity := t.quantity,
          tpPercent := t.tpPercent, slPercent := t.slPercent } ∧
      (switchTab tabId st).autoPriceEnabled = t.autoPriceEnabled ∧
      (switchTab tabId st).calculationMode = t.calculationMode ∧
      (switchTab tabId st).isLoadingTabState = true ∧
      jsFind (fun u => u.id == told.id) (switchTab tabId st).tabs =
        some (flushFields st.form st.autoPriceEnabled st.calculationMode told) ∧
      (∀ u ∈ st.tabs, u.id ≠ told.id → u ∈ (switchTab tabId st).tabs) ∧
      (switchTab tabId st).autoFetchIntervalId.isSome =
        hasAutoPriceB (switchTab tabId st)) ∧
    (∀ (st : AppState) (tabId : Nat),
      st.activeTabId ≠ some tabId → (∀ u ∈ st.tabs, u.id ≠ tabId) →
      (switchTab tabId st).activeTabId = some tabId ∧
      (switchTab tabId st).storedActiveTabId = some tabId ∧
      (switchTab tabId st).form = st.form ∧
      (switchTab tabId st).tabs = (saveCurrentTabState st).tabs ∧
      ∀ u ∈ (switchTab tabId st).tabs, u.id ≠ tabId) := by
  refine ⟨?_, ?_, ?_⟩
  · intro st tabId hA
    unfold switchTab
    rw [if_pos hA]
  · intro st tabId told t hnodup hload hact hmem hne htmem htid
    subst htid
    have hguard : ¬(st.activeTabId = some t.id) := by
      rw [hact]
      intro h
      exact hne (Option.some.inj h)
    have hfindold : jsFind (fun u => u.id == told.id) st.tabs = some told :=
      jsFind_of_mem_nodup hnodup hmem
    have hsave : saveCurrentTabState st =
        saveTabsToStorage
          { st with tabs := (updateFirst (fun u => u.id == told.id)
              (flushFields st.form st.autoPriceEnabled st.calculationMode) st.tabs) } := by
      unfold saveCurrentTabState
      rw [if_neg (by rw [hload]; exact Bool.false_ne_true), hact]
      dsimp only
      rw [hfindold]
      rfl
    have hpq : ∀ x : Tab, (x.id == told.id) = true → (x.id == t.id) = false := by
      intro x hx
      rw [beq_eq_false_iff_ne]
      intro hxid
      exact hne ((eq_of_beq hx).symm.trans hxid)
    have hfindT : jsFind (fun u => u.id == t.id)
        (updateFirst (fun u => u.id == told.id)
          (flushFields st.form st.autoPriceEnabled st.calculationMode) st.tabs) = some t := by
      rw [@jsFind_updateFirst_other Tab (fun u => u.id == told.id) (fun u => u.id == t.id)
        (flushFields st.form st.autoPriceEnabled st.calculationMode) hpq (fun x => rfl) st.tabs]
      exact jsFind_of_mem_nodup hnodup htmem
    have key : switchTab t.id st =
        checkAutoFetchInterval (loadTabState t.id
          { st with
            tabs := (updateFirst (fun u => u.id == told.id)
              (flushFields st.form st.autoPriceEnabled st.calculationMode) st.tabs)
            storedTabs := some (updateFirst (fun u => u.id == told.id)
              (flushFields st.form st.autoPriceEnabled st.calculationMode) st.tabs)
            activeTabId := some t.id
            storedActiveTabId := some t.id }) := by
      unfold switchTab
      rw [if_neg hguard, hact]
      rw [if_pos Option.isSome_some, hsave]
      rfl
    have hloadQ : loadTabState t.id
        { st with
          tabs := (updateFirst (fun u => u.id == told.id)
            (flushFields st.form st.autoPriceEnabled st.calculationMode) st.tabs)
          storedTabs := some (updateFirst (fun u => u.id == told.id)
            (flushFields st.form st.autoPriceEnabled st.calculationMode) st.tabs)
          activeTabId := some t.id
          storedActiveTabId := some t.id } =
        { st with
          tabs := (updateFirst (fun u => u.id == told.id)
            (flushFields st.form st.autoPriceEnabled st.calculationMode) st.tabs)
          storedTabs := some (updateFirst (fun u => u.id == told.id)
            (flushFields st.form st.autoPriceEnabled st.calculationMode) st.tabs)
          activeTabId := some t.id
          storedActiveTabId := some t.id
          isLoadingTabState := true
          form := { stockSymbol := t.stockSymbol, entryPrice := t.entryPrice,
                    targetPrice := t.targetPrice, quantity := t.quantity,
                    tpPercent := t.tpPercent, slPercent := t.slPercent }
          autoPriceEnabled := t.autoPriceEnabled
          calculationMode := t.calculationMode } := by
      unfold loadTabState
      dsimp only
      rw [hfindT]
    rw [key, hloadQ]
    refine ⟨(checkAutoFetchInterval_frame _).2.1,
      (checkAutoFetchInterval_frame _).2.2.2.2.2.2.2.2.2.1,
      (checkAutoFetchInterval_frame _).2.2.2.1,
      (checkAutoFetchInterval_frame _).2.2.2.2.1,
      (checkAutoFetchInterval_frame _).2.2.2.2.2.1,
      (checkAutoFetchInterval_frame _).2.2.2.2.2.2.1, ?_, ?_, ?_⟩
    · rw [(checkAutoFetchInterval_frame _).1]
      show jsFind (fun u => u.id == told.id)
        (updateFirst (fun u => u.id == told.id)
          (flushFields st.form st.autoPriceEnabled st.calculationMode) st.tabs) = _
      rw [@jsFind_updateFirst_self Tab (fun u => u.id == told.id)
        (flushFields st.form st.autoPriceEnabled st.calculationMode) (fun x => rfl) st.tabs,
        hfindold]
      rfl
    · intro u hu hid
      rw [(checkAutoFetchInterval_frame _).1]
      show u ∈ updateFirst (fun v => v.id == told.id)
        (flushFields st.form st.autoPriceEnabled st.calculationMode) st.tabs
      exact mem_updateFirst (by rw [beq_eq_false_iff_ne]; exact hid) hu
    · exact (checkAutoFetchInterval_isSome _).trans
        (hasAutoPriceB_congr _ _ ((checkAutoFetchInterval_frame _).1).symm
          ((checkAutoFetchInterval_frame _).2.1).symm)
  · intro st tabId hne hno
    have hids : ∀ u ∈ (saveCurrentTabState st).tabs, u.id ≠ tabId := by
      intro u hu
      have hmapeq : idsOf (saveCurrentTabState st).tabs = idsOf st.tabs := by
        unfold saveCurrentTabState
        split_ifs
        · rfl
        · cases hA : st.activeTabId with
          | none => rfl
          | some a =>
            dsimp only
            split_ifs
            · show idsOf (updateFirst (fun u => u.id == a)
                (flushFields st.form st.autoPriceEnabled st.calculationMode) st.tabs) =
                idsOf st.tabs
              exact @map_updateFirst Tab Nat Tab.id (fun u => u.id == a)
                (flushFields st.form st.autoPriceEnabled st.calculationMode)
                (fun x => rfl) st.tabs
            · rfl
      have humem : u.id ∈ idsOf st.tabs := by
        rw [← hmapeq]
        exact List.mem_map_of_mem Tab.id hu
      rcases List.mem_map.mp humem with ⟨v, hv, hvid⟩
      rw [← hvid]
      exact hno v hv
    have key : switchTab tabId st =
        checkAutoFetchInterval
          { saveCurrentTabState st with
            activeTabId := some tabId, storedActiveTabId := some tabId } := by
      unfold switchTab
      rw [if_neg hne]
      cases hAct : st.activeTabId with
      | none =>
        rw [saveCurrentTabState_of_none hAct]
        rw [if_neg (by simp : ¬((none : Option Nat).isSome = true))]
        exact congrArg checkAutoFetchInterval
          (loadTabState_of_absent (fun u hu => hno u hu))
      | some a =>
        rw [if_pos Option.isSome_some]
        exact congrArg checkAutoFetchInterval
          (loadTabState_of_absent (fun u hu => hids u hu))
    rw [key]
    refine ⟨(checkAutoFetchInterval_frame _).2.1,
      (checkAutoFetchInterval_frame _).2.2.2.2.2.2.2.2.2.1, ?_, ?_, ?_⟩
    · rw [(checkAutoFetchInterval_frame _).2.2.2.1]
      exact (saveCurrentTabState_frame st).2.2.1
    · exact (checkAutoFetchInterval_frame _).1
    · intro u hu
      rw [(checkAutoFetchInterval_frame _).1] at hu
      exact hids u hu

theorem switchTab_spec_witness :
    switchTab 1 exC2w = exC2w ∧
    (switchTab 2 exC2w).activeTabId = some 2 ∧
    (switchTab 2 exC2w).form.stockSymbol = "MSFT" ∧
    (switchTab 2 exC2w).isLoadingTabState = true :=
  ⟨switchTab_spec.1 exC2w 1 (by decide),
    (switchTab_spec.2.1 exC2w 2 wTabA wTabB (by decide) (by decide) (by decide)
      (by decide) (by decide) (by decide) (by decide)).1,
    congrArg Form.stockSymbol
      ((switchTab_spec.2.1 exC2w 2 wTabA wTabB (by decide) (by decide) (by decide)
        (by decide) (by decide) (by decide) (by decide)).2.2.1),
    (switchTab_spec.2.1 exC2w 2 wTabA wTabB (by decide) (by decide) (by decide)
      (by decide) (by decide) (by decide) (by decide)).2.2.2.2.2.1⟩

/-! ## Lemmas about nthOpt, eraseAt, insertAt and findIdxN -/

theorem nthOpt_mem {l : List α} {n : Nat} {x : α} (h : nthOpt l n = some x) : x ∈ l := by
  induction l generalizing n with
  | nil => cases h
  | cons y ys ih =>
    cases n with
    | zero =>
      cases h
      exact List.mem_cons_self _ _
    | succ m => exact List.mem_cons_of_mem _ (ih h)

theorem nthOpt_lt_length {l : List α} {n : Nat} {x : α} (h : nthOpt l n = some x) :
    n < l.length := by
  induction l generalizing n with
  | nil => cases h
  | cons y ys ih =>
    cases n with
    | zero => simp
    | succ m =>
      have := ih h
      simp only [List.length_cons]
      omega

theorem nthOpt_of_lt {l : List α} {n : Nat} (h : n < l.length) :
    ∃ x, nthOpt l n = some x := by
  induction l generalizing n with
  | nil => simp at h
  | cons y ys ih =>
    cases n with
    | zero => exact ⟨y, rfl⟩
    | succ m => exact ih (by simpa using h)

theorem nthOpt_findIdxN {p : α → Bool} {l : List α} {n : Nat}
    (h : findIdxN p l = some n) : ∃ x, nthOpt l n = some x ∧ p x = true := by
  induction l generalizing n with
  | nil => cases h
  | cons y ys ih =>
    unfold findIdxN at h
    by_cases hp : p y = true
    · rw [if_pos hp] at h
      cases h
      exact ⟨y, rfl, hp⟩
    · rw [if_neg hp] at h
      cases hfi : findIdxN p ys with
      | none => rw [hfi] at h; cases h
      | some m =>
        rw [hfi] at h
        simp only [Option.map_some'] at h
        cases h
        obtain ⟨x, hx, hpx⟩ := ih hfi
        exact ⟨x, hx, hpx⟩

theorem findIdxN_of_mem {p : α → Bool} {l : List α} {x : α}
    (hm : x ∈ l) (hp : p x = true) : ∃ n, findIdxN p l = some n ∧ n < l.length := by
  induction l with
  | nil => cases hm
  | cons y ys ih =>
    unfold findIdxN
    by_cases hpy : p y = true
    · exact ⟨0, by rw [if_pos hpy], by simp⟩
    · rcases List.mem_cons.mp hm with h | h
      · subst h
        exact absurd hp hpy
      · obtain ⟨n, hn, hlt⟩ := ih h
        refine ⟨n + 1, by rw [if_neg hpy, hn]; rfl, ?_⟩
        simp only [List.length_cons]
        omega

theorem findIdxN_none {p : α → Bool} {l : List α} (h : ∀ x ∈ l, p x = false) :
    findIdxN p l = none := by
  induction l with
  | nil => rfl
  | cons y ys ih =>
    unfold findIdxN
    rw [if_neg (by rw [h y (List.mem_cons_self _ _)]; exact Bool.false_ne_true)]
    rw [ih fun x hx => h x (List.mem_cons_of_mem y hx)]
    rfl

theorem mem_id_unique {l : List Tab} {x y : Tab} (hnodup : (idsOf l).Nodup)
    (hx : x ∈ l) (hy : y ∈ l) (hid : x.id = y.id) : x = y := by
  induction l with
  | nil => cases hx
  | cons z zs ih =>
    have hcons := List.nodup_cons.mp (show (z.id :: idsOf zs).Nodup from hnodup)
    rcases List.mem_cons.mp hx with h1 | h1 <;> rcases List.mem_cons.mp hy with h2 | h2
    · rw [h1, h2]
    · subst h1
      exact absurd (by rw [hid]; exact List.mem_map_of_mem Tab.id h2) hcons.1
    · subst h2
      exact absurd (by rw [← hid]; exact List.mem_map_of_mem Tab.id h1) hcons.1
    · exact ih hcons.2 h1 h2

theorem mem_eraseAt {l : List α} {n : Nat} {x : α} (h : x ∈ eraseAt l n) : x ∈ l := by
  induction l generalizing n with
  | nil => cases h
  | cons y ys ih =>
    cases n with
    | zero => exact List.mem_cons_of_mem _ h
    | succ m =>
      rcases List.mem_cons.mp h with h1 | h1
      · rw [h1]; exact List.mem_cons_self _ _
      · exact List.mem_cons_of_mem _ (ih h1)

theorem mem_eraseAt_of_ne {l : List α} {n : Nat} {x y : α}
    (hm : x ∈ l) (hy : nthOpt l n = some y) (hne : x ≠ y) : x ∈ eraseAt l n := by
  induction l generalizing n with
  | nil => cases hm
  | cons z zs ih =>
    cases n with
    | zero =>
      cases hy
      rcases List.mem_cons.mp hm with h | h
      · exact absurd h hne
      · exact h
    | succ m =>
      show x ∈ z :: eraseAt zs m
      rcases List.mem_cons.mp hm with h | h
      · subst h
        exact List.mem_cons_self _ _
      · exact List.mem_cons_of_mem _ (ih h hy)

theorem map_eraseAt (g : α → β) (l : List α) (n : Nat) :
    (eraseAt l n).map g = eraseAt (l.map g) n := by
  induction l generalizing n with
  | nil => rfl
  | cons y ys ih =>
    cases n with
    | zero => rfl
    | succ m =>
      show g y :: (eraseAt ys m).map g = g y :: eraseAt (ys.map g) m
      rw [ih]

theorem nodup_eraseAt {l : List α} (n : Nat) (h : l.Nodup) : (eraseAt l n).Nodup := by
  induction l generalizing n with
  | nil => exact h
  | cons y ys ih =>
    have hcons := List.nodup_cons.mp h
    cases n with
    | zero => exact hcons.2
    | succ m =>
      show (y :: eraseAt ys m).Nodup
      rw [List.nodup_cons]
      exact ⟨fun hm => hcons.1 (mem_eraseAt hm), ih m hcons.2⟩

theorem not_mem_eraseAt_of_nodup {l : List α} {n : Nat} {x : α}
    (h : l.Nodup) (hx : nthOpt l n = some x) : x ∉ eraseAt l n := by
  induction l generalizing n with
  | nil => cases hx
  | cons z zs ih =>
    have hcons := List.nodup_cons.mp h
    cases n with
    | zero =>
      cases hx
      exact hcons.1
    | succ m =>
      show x ∉ z :: eraseAt zs m
      intro hmem
      rcases List.mem_cons.mp hmem with h1 | h1
      · exact hcons.1 (by rw [← h1]; exact nthOpt_mem hx)
      · exact ih hcons.2 hx h1

theorem mem_insertAt {l : List α} {n : Nat} {a x : α}
    (h : x ∈ insertAt n a l) : x = a ∨ x ∈ l := by
  induction l generalizing n with
  | nil =>
    cases n with
    | zero => exact Or.inl (List.mem_singleton.mp h)
    | succ m => exact Or.inl (List.mem_singleton.mp h)
  | cons y ys ih =>
    cases n with
    | zero =>
      rcases List.mem_cons.mp h with h1 | h1
      · exact Or.inl h1
      · exact Or.inr h1
    | succ m =>
      rcases List.mem_cons.mp h with h1 | h1
      · exact Or.inr (by rw [h1]; exact List.mem_cons_self _ _)
      · rcases ih h1 with h2 | h2
        · exact Or.inl h2
        · exact Or.inr (List.mem_cons_of_mem _ h2)

theorem self_mem_insertAt (a : α) (n : Nat) (l : List α) : a ∈ insertAt n a l := by
  induction l generalizing n with
  | nil =>
    cases n with
    | zero => exact List.mem_cons_self _ _
    | succ m => exact List.mem_cons_self _ _
  | cons y ys ih =>
    cases n with
    | zero => exact List.mem_cons_self _ _
    | succ m => exact List.mem_cons_of_mem _ (ih m)

theorem mem_insertAt_of_mem {l : List α} {x : α} (a : α) (n : Nat)
    (h : x ∈ l) : x ∈ insertAt n a l := by
  induction l generalizing n with
  | nil => cases h
  | cons y ys ih =>
    cases n with
    | zero => exact List.mem_cons_of_mem _ h
    | succ m =>
      rcases List.mem_cons.mp h with h1 | h1
      · rw [h1]; exact List.mem_cons_self _ _
      · exact List.mem_cons_of_mem _ (ih m h1)

theorem map_insertAt (g : α → β) (a : α) (n : Nat) (l : List α) :
    (insertAt n a l).map g = insertAt n (g a) (l.map g) := by
  induction l generalizing n with
  | nil =>
    cases n with
    | zero => rfl
    | succ m => rfl
  | cons y ys ih =>
    cases n with
    | zero => rfl
    | succ m =>
      show g y :: (insertAt m a ys).map g = g y :: insertAt m (g a) (ys.map g)
      rw [ih]

theorem nodup_insertAt {l : List α} {a : α} (n : Nat) (ha : a ∉ l) (h : l.Nodup) :
    (insertAt n a l).Nodup := by
  induction l generalizing n with
  | nil =>
    cases n with
    | zero => exact List.nodup_singleton a
    | succ m => exact List.nodup_singleton a
  | cons y ys ih =>
    have hcons := List.nodup_cons.mp h
    cases n with
    | zero =>
      show (a :: y :: ys).Nodup
      rw [List.nodup_cons]
      exact ⟨ha, h⟩
    | succ m =>
      show (y :: insertAt m a ys).Nodup
      rw [List.nodup_cons]
      constructor
      · intro hmem
        rcases mem_insertAt hmem with h1 | h1
        · exact ha (by rw [← h1]; exact List.mem_cons_self _ _)
        · exact hcons.1 h1
      · exact ih m (fun hm => ha (List.mem_cons_of_mem _ hm)) hcons.2

theorem insertAt_eraseAt_self {l : List α} {n : Nat} {x : α}
    (h : nthOpt l n = some x) : insertAt n x (eraseAt l n) = l := by
  induction l generalizing n with
  | nil => cases h
  | cons y ys ih =>
    cases n with
    | zero =>
      cases h
      rfl
    | succ m =>
      show y :: insertAt m x (eraseAt ys m) = y :: ys
      rw [ih h]

theorem length_eraseAt {l : List α} {n : Nat} (h : n < l.length) :
    (eraseAt l n).length = l.length - 1 := by
  induction l generalizing n with
  | nil => simp at h
  | cons y ys ih =>
    cases n with
    | zero => simp [eraseAt]
    | succ m =>
      have hm : m < ys.length := by simpa using h
      show (y :: eraseAt ys m).length = (y :: ys).length - 1
      simp only [List.length_cons, ih hm]
      omega

theorem nthOpt_insertAt_self {l : List α} {n : Nat} (a : α) (h : n ≤ l.length) :
    nthOpt (insertAt n a l) n = some a := by
  induction l generalizing n with
  | nil =>
    cases n with
    | zero => rfl
    | succ m => exact absurd h (by simp)
  | cons y ys ih =>
    cases n with
    | zero => rfl
    | succ m =>
      show nthOpt (insertAt m a ys) m = some a
      exact ih (by simpa using h)

theorem nthOpt_insertAt_lt {l : List α} {n k : Nat} (a : α) (h : k < n)
    (hn : n ≤ l.length) : nthOpt (insertAt n a l) k = nthOpt l k := by
  induction l generalizing n k with
  | nil =>
    have : n = 0 := by simpa using hn
    omega
  | cons y ys ih =>
    cases n with
    | zero => omega
    | succ m =>
      cases k with
      | zero => rfl
      | succ k2 =>
        show nthOpt (insertAt m a ys) k2 = nthOpt ys k2
        exact ih (by omega) (by simpa using hn)

theorem nthOpt_insertAt_ge {l : List α} {n k : Nat} (a : α) (h : n ≤ k) :
    nthOpt (insertAt n a l) (k + 1) = nthOpt l k := by
  induction l generalizing n k with
  | nil =>
    cases n with
    | zero =>
      cases k <;> rfl
    | succ m =>
      cases k <;> rfl
  | cons y ys ih =>
    cases n with
    | zero => rfl
    | succ m =>
      cases k with
      | zero => omega
      | succ k2 =>
        show nthOpt (insertAt m a ys) (k2 + 1) = nthOpt ys k2
        exact ih (by omega)

theorem nthOpt_eraseAt_lt {l : List α} {i k : Nat} (h : k < i) :
    nthOpt (eraseAt l i) k = nthOpt l k := by
  induction l generalizing i k with
  | nil => rfl
  | cons y ys ih =>
    cases i with
    | zero => omega
    | succ m =>
      cases k with
      | zero => rfl
      | succ k2 =>
        show nthOpt (eraseAt ys m) k2 = nthOpt ys k2
        exact ih (by omega)

theorem nthOpt_eraseAt_ge {l : List α} {i k : Nat} (h : i ≤ k) :
    nthOpt (eraseAt l i) k = nthOpt l (k + 1) := by
  induction l generalizing i k with
  | nil => rfl
  | cons y ys ih =>
    cases i with
    | zero => rfl
    | succ m =>
      cases k with
      | zero => omega
      | succ k2 =>
        show nthOpt (eraseAt ys m) k2 = nthOpt ys (k2 + 1)
        exact ih (by omega)

/-! ## C9 amended: the semantics of reorderTabs -/

/-- C9 amended: reorder is a no-op (the state is unchanged) when either id is
missing, and leaves the collection unchanged when both ids are identical; for
distinct present ids the moved record is removed and reinserted at the
original index of the target record, which places it immediately preceding
the target when it started to the right of the target and immediately
following the target when it started to the left; the active pointer is never
changed. -/
theorem reorderTabs_spec :
    (∀ (st : AppState) (a b : Nat),
      ((∀ u ∈ st.tabs, u.id ≠ a) ∨ (∀ u ∈ st.tabs, u.id ≠ b)) →
      reorderTabs a b st = st) ∧
    (∀ (st : AppState) (a : Nat),
      (reorderTabs a a st).tabs = st.tabs ∧
      (reorderTabs a a st).activeTabId = st.activeTabId) ∧
    (∀ (st : AppState) (ta tb : Tab), (idsOf st.tabs).Nodup →
      ta ∈ st.tabs → tb ∈ st.tabs → ta.id ≠ tb.id →
      ∃ i j, findIdxN (fun u => u.id == ta.id) st.tabs = some i ∧
        findIdxN (fun u => u.id == tb.id) st.tabs = some j ∧
        (reorderTabs ta.id tb.id st).tabs = insertAt j ta (eraseAt st.tabs i) ∧
        (reorderTabs ta.id tb.id st).activeTabId = st.activeTabId ∧
        (i < j → nthOpt (reorderTabs ta.id tb.id st).tabs (j - 1) = some tb ∧
          nthOpt (reorderTabs ta.id tb.id st).tabs j = some ta) ∧
        (j < i → nthOpt (reorderTabs ta.id tb.id st).tabs j = some ta ∧
          nthOpt (reorderTabs ta.id tb.id st).tabs (j + 1) = some tb)) := by
  have huniq : ∀ (l : List Tab) (t : Tab) (n : Nat), (idsOf l).Nodup → t ∈ l →
      findIdxN (fun u => u.id == t.id) l = some n → nthOpt l n = some t := by
    intro l t n hnodup hm hf
    obtain ⟨x, hx, hpx⟩ := nthOpt_findIdxN hf
    have : x = t := mem_id_unique hnodup (nthOpt_mem hx) hm (eq_of_beq hpx)
    rw [← this]
    exact hx
  refine ⟨?_, ?_, ?_⟩
  · intro st a b h
    unfold reorderTabs
    rcases h with h | h
    · have hfa : findIdxN (fun u => u.id == a) st.tabs = none :=
        findIdxN_none (fun x hx => by rw [beq_eq_false_iff_ne]; exact h x hx)
      rw [hfa]
    · have hfb : findIdxN (fun u => u.id == b) st.tabs = none :=
        findIdxN_none (fun x hx => by rw [beq_eq_false_iff_ne]; exact h x hx)
      rw [hfb]
      cases hfa : findIdxN (fun u => u.id == a) st.tabs <;> rfl
  · intro st a
    cases hfa : findIdxN (fun u => u.id == a) st.tabs with
    | none =>
      have h : reorderTabs a a st = st := by
        unfold reorderTabs
        rw [hfa]
      rw [h]
      exact ⟨rfl, rfl⟩
    | some i =>
      cases hx : nthOpt st.tabs i with
      | none =>
        have h : reorderTabs a a st = st := by
          unfold reorderTabs
          rw [hfa]
          show (match nthOpt st.tabs i with
            | some d => saveTabsToStorage { st with tabs := insertAt i d (eraseAt st.tabs i) }
            | none => st) = st
          rw [hx]
        rw [h]
        exact ⟨rfl, rfl⟩
      | some x =>
        have h : reorderTabs a a st =
            saveTabsToStorage { st with tabs := insertAt i x (eraseAt st.tabs i) } := by
          unfold reorderTabs
          rw [hfa]
          show (match nthOpt st.tabs i with
            | some d => saveTabsToStorage { st with tabs := insertAt i d (eraseAt st.tabs i) }
            | none => st) = _
          rw [hx]
        rw [h]
        exact ⟨insertAt_eraseAt_self hx, rfl⟩
  · intro st ta tb hnodup hma hmb hne
    obtain ⟨i, hfa, hilt⟩ :=
      @findIdxN_of_mem Tab (fun u => u.id == ta.id) st.tabs ta hma (by simp)
    obtain ⟨j, hfb, hjlt⟩ :=
      @findIdxN_of_mem Tab (fun u => u.id == tb.id) st.tabs tb hmb (by simp)
    have hxa : nthOpt st.tabs i = some ta := huniq st.tabs ta i hnodup hma hfa
    have hxb : nthOpt st.tabs j = some tb := huniq st.tabs tb j hnodup hmb hfb
    have hred : reorderTabs ta.id tb.id st =
        saveTabsToStorage { st with tabs := insertAt j ta (eraseAt st.tabs i) } := by
      unfold reorderTabs
      rw [hfa, hfb]
      show (match nthOpt st.tabs i with
        | some d => saveTabsToStorage { st with tabs := insertAt j d (eraseAt st.tabs i) }
        | none => st) = _
      rw [hxa]
    have htabs : (reorderTabs ta.id tb.id st).tabs = insertAt j ta (eraseAt st.tabs i) := by
      rw [hred]
      rfl
    have hactive : (reorderTabs ta.id tb.id st).activeTabId = st.activeTabId := by
      rw [hred]
      rfl
    have hjle : j ≤ (eraseAt st.tabs i).length := by
      rw [length_eraseAt hilt]
      omega
    refine ⟨i, j, hfa, hfb, htabs, hactive, ?_, ?_⟩
    · intro hij
      rw [htabs]
      constructor
      · rw [nthOpt_insertAt_lt ta (by omega) hjle]
        rw [nthOpt_eraseAt_ge (by omega : i ≤ j - 1)]
        rw [show j - 1 + 1 = j from by omega]
        exact hxb
      · exact nthOpt_insertAt_self ta hjle
    · intro hji
      rw [htabs]
      constructor
      · exact nthOpt_insertAt_self ta hjle
      · rw [nthOpt_insertAt_ge ta (le_refl j)]
        rw [nthOpt_eraseAt_lt hji]
        exact hxb

theorem reorderTabs_spec_witness :
    reorderTabs 9 1 exC9 = exC9 ∧
    (reorderTabs 1 1 exC9).tabs = exC9.tabs ∧
    nthOpt (reorderTabs 3 1 exC9).tabs 0 = some (mkTab 3) ∧
    nthOpt (reorderTabs 3 1 exC9).tabs 1 = some (mkTab 1) := by
  refine ⟨reorderTabs_spec.1 exC9 9 1 (Or.inl (by decide)),
    (reorderTabs_spec.2.1 exC9 1).1, ?_⟩
  obtain ⟨i, j, hfa, hfb, htabs, hact, hlt, hgt⟩ :=
    reorderTabs_spec.2.2 exC9 (mkTab 3) (mkTab 1) (by decide) (by decide) (by decide)
      (by decide)
  have hi : i = 2 := by
    have h2 : findIdxN (fun u => u.id == (mkTab 3).id) exC9.tabs = some 2 := by decide
    exact Option.some.inj (hfa.symm.trans h2)
  have hj : j = 0 := by
    have h2 : findIdxN (fun u => u.id == (mkTab 1).id) exC9.tabs = some 0 := by decide
    exact Option.some.inj (hfb.symm.trans h2)
  subst hi
  subst hj
  exact ⟨(hgt (by decide)).1, (hgt (by decide)).2⟩

/-! ## C1 amended: store invariants under create, close and reorder -/

theorem nthOpt_map (g : α → β) (l : List α) (n : Nat) :
    nthOpt (l.map g) n = (nthOpt l n).map g := by
  induction l generalizing n with
  | nil => rfl
  | cons y ys ih =>
    cases n with
    | zero => rfl
    | succ m => exact ih m

theorem idsOf_saveCurrentTabState (st : AppState) :
    idsOf (saveCurrentTabState st).tabs = idsOf st.tabs := by
  unfold saveCurrentTabState
  split_ifs
  · rfl
  · cases hA : st.activeTabId with
    | none => rfl
    | some a =>
      dsimp only
      split_ifs
      · show idsOf (updateFirst (fun u => u.id == a)
          (flushFields st.form st.autoPriceEnabled st.calculationMode) st.tabs) =
          idsOf st.tabs
        exact @map_updateFirst Tab Nat Tab.id (fun u => u.id == a)
          (flushFields st.form st.autoPriceEnabled st.calculationMode)
          (fun x => rfl) st.tabs
      · rfl

theorem storeInv_check_save (Z : AppState)
    (h1 : (idsOf Z.tabs).Nodup)
    (h2 : ∃ t ∈ Z.tabs, Z.activeTabId = some t.id)
    (h3 : ∀ t ∈ Z.tabs, t.id < Z.nextId) :
    StoreInv (checkAutoFetchInterval (saveTabsToStorage Z)) := by
  refine ⟨?_, ?_, ?_⟩
  · rw [(checkAutoFetchInterval_frame _).1]
    exact h1
  · obtain ⟨t, ht, hta⟩ := h2
    refine ⟨t, ?_, ?_⟩
    · rw [(checkAutoFetchInterval_frame _).1]
      exact ht
    · rw [(checkAutoFetchInterval_frame _).2.1]
      exact hta
  · intro t ht
    rw [(checkAutoFetchInterval_frame _).1] at ht
    rw [(checkAutoFetchInterval_frame _).2.2.1]
    exact h3 t ht

theorem storeInv_addTail (S : AppState)
    (h1 : (idsOf S.tabs).Nodup) (h3 : ∀ t ∈ S.tabs, t.id < S.nextId) :
    StoreInv (clearCalculatorForm (saveTabsToStorage
      { S with
        tabs := (S.tabs ++
          [{ id := S.nextId, name := "New Tab", stockSymbol := "",
             entryPrice := "", targetPrice := "", quantity := "",
             tpPercent := "", slPercent := "", autoPriceEnabled := false,
             calculationMode := CalcMode.current, createdAt := S.nextId }])
        activeTabId := some S.nextId
        nextId := S.nextId + 1 })) := by
  have hfresh : S.nextId ∉ idsOf S.tabs := by
    intro hm
    rcases List.mem_map.mp hm with ⟨u, hu, huid⟩
    exact absurd (huid ▸ h3 u hu) (lt_irrefl _)
  refine ⟨?_, ?_, ?_⟩
  · show (idsOf (S.tabs ++
      [Tab.mk S.nextId "New Tab" "" "" "" "" "" "" false CalcMode.current S.nextId])).Nodup
    rw [show ∀ (l : List Tab) (t : Tab), idsOf (l ++ [t]) = idsOf l ++ [t.id] from
      fun l t => by simp [idsOf]]
    rw [List.nodup_append]
    refine ⟨h1, List.nodup_singleton _, ?_⟩
    intro x hx hmem
    rw [List.mem_singleton] at hmem
    subst hmem
    exact hfresh hx
  · refine ⟨Tab.mk S.nextId "New Tab" "" "" "" "" "" "" false CalcMode.current S.nextId,
      ?_, rfl⟩
    show _ ∈ S.tabs ++ [_]
    exact List.mem_append_right _ (List.mem_singleton_self _)
  · intro t ht
    show t.id < S.nextId + 1
    rcases List.mem_append.mp (show t ∈ S.tabs ++
      [Tab.mk S.nextId "New Tab" "" "" "" "" "" "" false CalcMode.current S.nextId] from ht)
      with h2 | h2
    · have := h3 t h2
      omega
    · rw [List.mem_singleton] at h2
      rw [h2]
      exact Nat.lt_succ_self S.nextId

theorem storeInv_addNewTab (st : AppState) (h : StoreInv st) :
    StoreInv (addNewTab st) := by
  obtain ⟨hnodup, hactive, hbound⟩ := h
  unfold addNewTab
  by_cases hlen : MAX_TABS ≤ st.tabs.length
  · rw [if_pos hlen]
    exact ⟨hnodup, hactive, hbound⟩
  · rw [if_neg hlen]
    dsimp only
    by_cases hA : st.activeTabId.isSome = true
    · rw [if_pos hA]
      have h1 : (idsOf (saveCurrentTabState st).tabs).Nodup := by
        rw [idsOf_saveCurrentTabState]
        exact hnodup
      have h3 : ∀ t ∈ (saveCurrentTabState st).tabs,
          t.id < (saveCurrentTabState st).nextId := by
        intro t ht
        have hid : t.id ∈ idsOf (saveCurrentTabState st).tabs :=
          List.mem_map_of_mem Tab.id ht
        rw [idsOf_saveCurrentTabState] at hid
        rcases List.mem_map.mp hid with ⟨u, hu, huid⟩
        rw [(saveCurrentTabState_frame st).2.1, ← huid]
        exact hbound u hu
      exact storeInv_addTail (saveCurrentTabState st) h1 h3
    · rw [if_neg hA]
      exact storeInv_addTail st hnodup hbound

theorem storeInv_closeTail (X : AppState) (tabId : Nat)
    (hnodup : (idsOf X.tabs).Nodup)
    (hactive : ∃ t ∈ X.tabs, X.activeTabId = some t.id)
    (hbound : ∀ t ∈ X.tabs, t.id < X.nextId)
    (hpres : ∃ t ∈ X.tabs, t.id = tabId)
    (hlen2 : X.tabs.length ≠ 1) :
    StoreInv (checkAutoFetchInterval (saveTabsToStorage
      (let tabIndex : Int := jsFindIndex (fun t => t.id == tabId) X.tabs
       let st2 : AppState := { X with tabs := jsSpliceRemoveOne X.tabs tabIndex }
       if st2.activeTabId = some tabId then
         let newActiveIndex : Nat := (max 0 (tabIndex - 1)).toNat
         match nthOpt st2.tabs newActiveIndex with
         | some t =>
           loadTabState t.id
             { st2 with activeTabId := some t.id, storedActiveTabId := some t.id }
         | none => st2
       else st2))) := by
  obtain ⟨tp, htpmem, htpid⟩ := hpres
  subst htpid
  obtain ⟨n, hfn, hnlt⟩ :=
    @findIdxN_of_mem Tab (fun u => u.id == tp.id) X.tabs tp htpmem (by simp)
  have hlen : 2 ≤ X.tabs.length := by
    have h0 : 0 < X.tabs.length := List.length_pos.mpr (List.ne_nil_of_mem htpmem)
    omega
  have hnth : nthOpt X.tabs n = some tp := by
    obtain ⟨x, hx, hpx⟩ := nthOpt_findIdxN hfn
    rw [← mem_id_unique hnodup (nthOpt_mem hx) htpmem (eq_of_beq hpx)]
    exact hx
  have hidx : jsFindIndex (fun t => t.id == tp.id) X.tabs = (n : Int) := by
    unfold jsFindIndex
    rw [hfn]
  have hsplice : jsSpliceRemoveOne X.tabs ((n : Nat) : Int) = eraseAt X.tabs n := by
    unfold jsSpliceRemoveOne
    rw [if_neg (by omega)]
    rw [show ((n : Int)).toNat = n from by omega]
  have hnoduperase : (idsOf (eraseAt X.tabs n)).Nodup := by
    rw [show idsOf (eraseAt X.tabs n) = eraseAt (idsOf X.tabs) n from
      map_eraseAt Tab.id X.tabs n]
    exact nodup_eraseAt n hnodup
  have hbounderase : ∀ t ∈ eraseAt X.tabs n, t.id < X.nextId :=
    fun t ht => hbound t (mem_eraseAt ht)
  dsimp only
  rw [hidx, hsplice]
  by_cases hcond : X.activeTabId = some tp.id
  · rw [if_pos hcond]
    have hnailt : (max 0 ((n : Int) - 1)).toNat < (eraseAt X.tabs n).length := by
      rw [length_eraseAt hnlt]
      omega
    obtain ⟨tnew, htnew⟩ := nthOpt_of_lt hnailt
    rw [htnew]
    apply storeInv_check_save
    · rw [(loadTabState_frame _ _).1]
      exact hnoduperase
    · refine ⟨tnew, ?_, ?_⟩
      · rw [(loadTabState_frame _ _).1]
        exact nthOpt_mem htnew
      · rw [(loadTabState_frame _ _).2.1]
    · intro t ht
      rw [(loadTabState_frame _ _).1] at ht
      rw [(loadTabState_frame _ _).2.2.1]
      exact hbounderase t ht
  · rw [if_neg hcond]
    obtain ⟨tact, htactmem, htact⟩ := hactive
    apply storeInv_check_save
    · exact hnoduperase
    · refine ⟨tact, ?_, htact⟩
      refine mem_eraseAt_of_ne htactmem hnth ?_
      intro hh
      exact hcond (by rw [htact, hh])
    · exact hbounderase

set_option maxHeartbeats 1600000 in
theorem storeInv_closeTab (st : AppState) (tabId : Nat) (confirmClose : Bool)
    (h : StoreInv st) (hpres : ∃ t ∈ st.tabs, t.id = tabId) :
    StoreInv (closeTab tabId confirmClose st) := by
  obtain ⟨hnodup, hactive, hbound⟩ := h
  by_cases hlen : st.tabs.length = 1
  · have heq : closeTab tabId confirmClose st = st := by
      unfold closeTab
      rw [if_pos hlen]
    rw [heq]
    exact ⟨hnodup, hactive, hbound⟩
  · obtain ⟨tp, htpmem, htpid⟩ := hpres
    have hfind : jsFind (fun u => u.id == tabId) st.tabs = some tp := by
      rw [← htpid]
      exact jsFind_of_mem_nodup hnodup htpmem
    unfold closeTab
    rw [if_neg hlen, hfind]
    dsimp only
    by_cases hc : ((tp.stockSymbol != "") && !confirmClose) = true
    · rw [if_pos hc]
      exact ⟨hnodup, hactive, hbound⟩
    · rw [if_neg hc]
      by_cases hs : (tp.stockSymbol != "") = true
      · rw [if_pos hs]
        exact storeInv_closeTail
          { st with priceCache := removeCacheKey (jsUpper tp.stockSymbol) st.priceCache }
          tabId hnodup hactive hbound ⟨tp, htpmem, htpid⟩ hlen
      · rw [if_neg hs]
        exact storeInv_closeTail st tabId hnodup hactive hbound ⟨tp, htpmem, htpid⟩ hlen

theorem storeInv_reorderTabs (st : AppState) (a b : Nat) (h : StoreInv st) :
    StoreInv (reorderTabs a b st) := by
  obtain ⟨hnodup, hactive, hbound⟩ := h
  cases hfa : findIdxN (fun u => u.id == a) st.tabs with
  | none =>
    have heq : reorderTabs a b st = st := by
      unfold reorderTabs
      rw [hfa]
    rw [heq]
    exact ⟨hnodup, hactive, hbound⟩
  | some i =>
    cases hfb : findIdxN (fun u => u.id == b) st.tabs with
    | none =>
      have heq : reorderTabs a b st = st := by
        unfold reorderTabs
        rw [hfa, hfb]
      rw [heq]
      exact ⟨hnodup, hactive, hbound⟩
    | some j =>
      cases hx : nthOpt st.tabs i with
      | none =>
        have heq : reorderTabs a b st = st := by
          unfold reorderTabs
          rw [hfa, hfb]
          show (match nthOpt st.tabs i with
            | some d => saveTabsToStorage { st with tabs := insertAt j d (eraseAt st.tabs i) }
            | none => st) = st
          rw [hx]
        rw [heq]
        exact ⟨hnodup, hactive, hbound⟩
      | some d =>
        have heq : reorderTabs a b st =
            saveTabsToStorage { st with tabs := insertAt j d (eraseAt st.tabs i) } := by
          unfold reorderTabs
          rw [hfa, hfb]
          show (match nthOpt st.tabs i with
            | some d2 => saveTabsToStorage { st with tabs := insertAt j d2 (eraseAt st.tabs i) }
            | none => st) = _
          rw [hx]
        rw [heq]
        have hids : idsOf (insertAt j d (eraseAt st.tabs i)) =
            insertAt j d.id (eraseAt (idsOf st.tabs) i) := by
          rw [show idsOf (insertAt j d (eraseAt st.tabs i)) =
            (insertAt j d (eraseAt st.tabs i)).map Tab.id from rfl]
          rw [map_insertAt, map_eraseAt]
          rfl
        have hdid : nthOpt (idsOf st.tabs) i = some d.id := by
          rw [show idsOf st.tabs = st.tabs.map Tab.id from rfl, nthOpt_map, hx]
          rfl
        refine ⟨?_, ?_, ?_⟩
        · show (idsOf (insertAt j d (eraseAt st.tabs i))).Nodup
          rw [hids]
          exact nodup_insertAt j (not_mem_eraseAt_of_nodup hnodup hdid)
            (nodup_eraseAt i hnodup)
        · obtain ⟨tact, htactmem, htact⟩ := hactive
          refine ⟨tact, ?_, htact⟩
          show tact ∈ insertAt j d (eraseAt st.tabs i)
          by_cases hta : tact = d
          · rw [hta]
            exact self_mem_insertAt d j _
          · exact mem_insertAt_of_mem d j (mem_eraseAt_of_ne htactmem hx hta)
        · intro t ht
          show t.id < st.nextId
          rcases mem_insertAt (show t ∈ insertAt j d (eraseAt st.tabs i) from ht) with h1 | h1
          · rw [h1]
            exact hbound d (nthOpt_mem hx)
          · exact hbound t (mem_eraseAt h1)

theorem storeInv_applyOp (st : AppState) (op : TabOp) (h : StoreInv st)
    (hop : match op with
      | TabOp.close i _ => ∃ t ∈ st.tabs, t.id = i
      | _ => True) : StoreInv (applyOp st op) := by
  cases op with
  | add => exact storeInv_addNewTab st h
  | close i c => exact storeInv_closeTab st i c h hop
  | reorder a b => exact storeInv_reorderTabs st a b h

/-- C1 amended: starting from any valid store (pairwise-distinct ids, an
active pointer resolving into the collection, fresh id supply), every
sequence of create, close and reorder operations in which each close targets
an id present in the collection at that moment preserves pairwise-distinct
ids and keeps activeTabId equal to the id of some record in the collection;
the max-20 and min-1 bounds are enforced by the operations themselves. -/
theorem tabOps_preserve_invariants (st : AppState) (ops : List TabOp)
    (hinv : StoreInv st) (hops : ClosesPresent st ops) :
    (idsOf (applyOps st ops).tabs).Nodup ∧
    ∃ t ∈ (applyOps st ops).tabs, (applyOps st ops).activeTabId = some t.id := by
  induction ops generalizing st with
  | nil => exact ⟨hinv.1, hinv.2.1⟩
  | cons op rest ih =>
    obtain ⟨h1, h2⟩ := hops
    exact ih (applyOp st op) (storeInv_applyOp st op hinv h1) h2

theorem tabOps_preserve_invariants_witness :
    StoreInv exC1 ∧
    ClosesPresent exC1 [TabOp.add, TabOp.close 2 true, TabOp.reorder 3 1] ∧
    (idsOf (applyOps exC1 [TabOp.add, TabOp.close 2 true, TabOp.reorder 3 1]).tabs).Nodup ∧
    ∃ t ∈ (applyOps exC1 [TabOp.add, TabOp.close 2 true, TabOp.reorder 3 1]).tabs,
      (applyOps exC1 [TabOp.add, TabOp.close 2 true, TabOp.reorder 3 1]).activeTabId =
        some t.id := by
  have hinv : StoreInv exC1 := ⟨by decide, by decide, by decide⟩
  have hops : ClosesPresent exC1 [TabOp.add, TabOp.close 2 true, TabOp.reorder 3 1] := by
    simp only [ClosesPresent, applyOp]
    exact ⟨trivial, by decide, trivial, trivial⟩
  exact ⟨hinv, hops, tabOps_preserve_invariants exC1 _ hinv hops⟩

end TradeTabs

